import Mathlib

/-!
Verification of the ScentMatch in-memory recommendation scoring engine
(`backend/app/ml/models/NoteBasedRecommender.py` and
`backend/app/ml/models/SimilarityRecommender.py`).

The Python code is embedded shallowly: Python `float` is modelled as `ℝ`,
Python `int` as `ℤ` (counts as `ℕ` where the source only ever increments),
Python `str` as Lean `String` with character-level models of `str.lower`,
`str.strip` and `str.split(',')` (ASCII case mapping and the four common
whitespace characters, which is the fragment the catalog data exercises),
Python `dict` / `collections.Counter` as association lists built by the same
insert-or-update steps the interpreter performs, and Python `set` as
`Finset String`.  Exceptions are modelled with `Except String`.
-/

set_option maxHeartbeats 1000000

/-! ## Python string primitives -/

/-- Whitespace test used by the model of `str.strip` (space, tab, newline,
carriage return). -/
def isPySpace (c : Char) : Bool :=
  c.toNat = 32 || c.toNat = 9 || c.toNat = 10 || c.toNat = 13

/-- Model of Python `str.lower` (ASCII case mapping, which is also exactly
Lean's `Char.toLower`). -/
def pyLower (s : String) : String := ⟨s.data.map Char.toLower⟩

/-- Strip leading and trailing whitespace from a character list. -/
def stripChars (l : List Char) : List Char :=
  ((l.dropWhile isPySpace).reverse.dropWhile isPySpace).reverse

/-- Model of Python `str.strip()`. -/
def pyStrip (s : String) : String := ⟨stripChars s.data⟩

/-- Auxiliary splitter for the model of `str.split(',')`. -/
def splitCommaAux : List Char → List Char → List (List Char)
  | [], acc => [acc.reverse]
  | c :: rest, acc =>
    if c = ',' then acc.reverse :: splitCommaAux rest []
    else splitCommaAux rest (c :: acc)

/-- Model of Python `str.split(',')`. -/
def pySplitComma (s : String) : List String :=
  (splitCommaAux s.data []).map (fun l => ⟨l⟩)

/-! ## Database row values

`from_database_rows` receives rows whose fields are duck-typed: a note field
may be a list, a delimited string, `None`, or something else entirely, and the
numeric fields may be numbers, numeric strings, or `None`.  `DBValue` is the
tagged union of the shapes the external interface describes. -/

inductive DBValue where
  | vnull : DBValue
  | vstr : String → DBValue
  | vnum : ℚ → DBValue
  | vint : ℤ → DBValue
  | vlist : List DBValue → DBValue

/-- Python truthiness for the row values we model (`None`, `""`, `0`, `[]`
are falsy). -/
def pyTruthy : DBValue → Bool
  | .vnull => false
  | .vstr s => s ≠ ""
  | .vnum q => q ≠ 0
  | .vint n => n ≠ 0
  | .vlist l => !l.isEmpty

/-- Model of Python `str(...)` on row values (exact rendering of numbers and
lists is irrelevant to every claim; only totality and identity on strings
matter). -/
def pyStr : DBValue → String
  | .vnull => "None"
  | .vstr s => s
  | .vnum q => toString q
  | .vint n => toString n
  | .vlist _ => "[list]"

/-- Digit run to a natural number. -/
def digitsToNat (l : List Char) : ℕ :=
  l.foldl (fun a c => a * 10 + (c.toNat - 48)) 0

/-- Model of CPython `float(...)` on a string: optional sign, plain decimal
digits with an optional fraction part, surrounded by optional whitespace
(exponents and the `inf`/`nan` spellings are outside every claim and are
rejected, which only narrows the set of rows the load is proved total on). -/
def parseDecimal (s : String) : Option ℚ :=
  let t := (pyStrip s).data
  let (sign, t1) : ℚ × List Char :=
    match t with
    | '-' :: r => (-1, r)
    | '+' :: r => (1, r)
    | _ => (1, t)
  let intPart := t1.takeWhile Char.isDigit
  let rest := t1.dropWhile Char.isDigit
  match rest with
  | [] => if intPart = [] then none else some (sign * digitsToNat intPart)
  | '.' :: frac =>
    if frac.all Char.isDigit ∧ (intPart ≠ [] ∨ frac ≠ []) then
      some (sign * ((digitsToNat intPart : ℚ) + (digitsToNat frac : ℚ) / 10 ^ frac.length))
    else none
  | _ => none

/-- Model of CPython `int(...)` on a string: optional sign and digits only
(`int("4.5")` raises). -/
def parseInteger (s : String) : Option ℤ :=
  let t := (pyStrip s).data
  let (sign, t1) : ℤ × List Char :=
    match t with
    | '-' :: r => (-1, r)
    | '+' :: r => (1, r)
    | _ => (1, t)
  if t1 ≠ [] ∧ t1.all Char.isDigit then some (sign * digitsToNat t1) else none

/-- Model of Python `float(value)`: succeeds on numbers and numeric strings,
raises (returns `none`) on `None`, lists and non-numeric strings. -/
def pyFloat : DBValue → Option ℚ
  | .vnull => none
  | .vnum q => some q
  | .vint n => some n
  | .vstr s => parseDecimal s
  | .vlist _ => none

/-- Truncation toward zero, as Python `int(float)` does. -/
def ratTrunc (q : ℚ) : ℤ := if 0 ≤ q then ⌊q⌋ else ⌈q⌉

/-- Model of Python `int(value)`: succeeds on integers, floats (truncating)
and integer strings, raises on `None`, lists and other strings. -/
def pyInt : DBValue → Option ℤ
  | .vnull => none
  | .vnum q => some (ratTrunc q)
  | .vint n => some n
  | .vstr s => parseInteger s
  | .vlist _ => none

/-- A database row: field name to value, as `dict.get` sees it. -/
def rowGet (row : List (String × DBValue)) (k : String) : Option DBValue :=
  (row.find? (fun p => p.1 == k)).map (fun p => p.2)

/-! ## The fragrance record and `_clean_note_list` -/

/-- `Fragrance` dataclass from the source (identical in both recommender
modules): `id` is a UUID string, `notes` is the concatenation of the three
position lists, `avg_rating` a float, `num_ratings` an int. -/
structure Fragrance where
  id : String
  name : String
  brand : String
  notes : List String
  top_notes : List String
  middle_notes : List String
  base_notes : List String
  accords : List String
  avg_rating : ℝ
  num_ratings : ℤ

/-- `NotePreference` dataclass: a note/accord name with a 1-10 importance. -/
structure NotePreference where
  name : String
  importance : ℤ

/-- `RecommendationResult` dataclass: the scored fragrance together with the
component-score explanation mapping. -/
structure RecommendationResult where
  fragrance : Fragrance
  score : ℝ
  explanation : List (String × ℝ)

/-- `_clean_note_list` (identical static method in both recommender classes):
falsy input gives `[]`; a list keeps its truthy entries whose rendering strips
to something non-empty, as `str(note).strip().lower()`; a string is split on
commas, entries stripped, empties dropped, rest lowercased; any other type
gives `[]`. -/
def cleanNoteList (v : DBValue) : List String :=
  if pyTruthy v = false then []
  else
    match v with
    | .vlist l =>
      (l.filter (fun n => pyTruthy n && pyStrip (pyStr n) ≠ "")).map
        (fun n => pyLower (pyStrip (pyStr n)))
    | .vstr s =>
      ((pySplitComma s).filter (fun part => pyStrip part ≠ "")).map
        (fun part => pyLower (pyStrip part))
    | _ => []

/-- One row of `from_database_rows`: clean the four note/accord fields, then
require `id`, `name`, `brand_name` to be present (`row['id']` raises
`KeyError` when absent) and coerce the rating fields with `float(...)` /
`int(...)`, which raise on `None` and other non-coercible values; a *missing*
rating field defaults to `0.0` / `0` before the coercion and never raises. -/
def rowToFragrance (row : List (String × DBValue)) : Except String Fragrance :=
  let top := cleanNoteList ((rowGet row "top_notes").getD (.vlist []))
  let mid := cleanNoteList ((rowGet row "middle_notes").getD (.vlist []))
  let base := cleanNoteList ((rowGet row "base_notes").getD (.vlist []))
  let acc := cleanNoteList ((rowGet row "main_accords").getD (.vlist []))
  match rowGet row "id" with
  | none => .error "KeyError: id"
  | some idv =>
    match rowGet row "name" with
    | none => .error "KeyError: name"
    | some namev =>
      match rowGet row "brand_name" with
      | none => .error "KeyError: brand_name"
      | some brandv =>
        match pyFloat ((rowGet row "average_rating").getD (.vnum 0)) with
        | none => .error "TypeError: float() argument"
        | some avg =>
          match pyInt ((rowGet row "total_ratings").getD (.vint 0)) with
          | none => .error "TypeError: int() argument"
          | some tot =>
            .ok { id := pyStr idv, name := pyStr namev, brand := pyStr brandv,
                  notes := top ++ mid ++ base, top_notes := top,
                  middle_notes := mid, base_notes := base, accords := acc,
                  avg_rating := (avg : ℝ), num_ratings := tot }

/-- `from_database_rows` (classmethod, identical in both recommender classes):
convert every row, propagating the first exception. -/
def fromDatabaseRows (rows : List (List (String × DBValue))) :
    Except String (List Fragrance) :=
  rows.mapM rowToFragrance

/-! ## Python dict and Counter as association lists

`{f.id: f for f in fragrances}` and `Counter` updates are folds of an
insert-or-update step; keys stay unique and keep first-insertion order, and an
update replaces the stored value in place, exactly as CPython dicts behave. -/

/-- One Python dict assignment `m[k] = v`. -/
def dictUpd {α : Type} (m : List (String × α)) (k : String) (v : α) :
    List (String × α) :=
  if m.any (fun p => p.1 == k) then
    m.map (fun p => if p.1 == k then (k, v) else p)
  else m ++ [(k, v)]

/-- Build a dict from a pair list (a Python dict comprehension). -/
def buildDict {α : Type} (l : List (String × α)) : List (String × α) :=
  l.foldl (fun m p => dictUpd m p.1 p.2) []

/-- `dict.get(k, d)` / `Counter[k]` style lookup. -/
def dictGet {α : Type} (m : List (String × α)) (k : String) (d : α) : α :=
  ((m.find? (fun p => p.1 == k)).map (fun p => p.2)).getD d

/-- One `Counter` increment `frequencies[k] += 1`. -/
def cntIncr (m : List (String × ℕ)) (k : String) : List (String × ℕ) :=
  if m.any (fun p => p.1 == k) then
    m.map (fun p => if p.1 == k then (p.1, p.2 + 1) else p)
  else m ++ [(k, 1)]

/-- `self.fragrances = {f.id: f for f in fragrances}`. -/
def fragDict (fs : List Fragrance) : List (String × Fragrance) :=
  buildDict (fs.map (fun f => (f.id, f)))

/-- `self.fragrances.values()` in insertion order. -/
def fragValues (fs : List Fragrance) : List Fragrance :=
  (fragDict fs).map (fun p => p.2)

/-- `target_id in self.fragrances` / `self.fragrances[target_id]`. -/
def fragLookup (fs : List Fragrance) (id : String) : Option Fragrance :=
  ((fragDict fs).find? (fun p => p.1 == id)).map (fun p => p.2)

/-- `_calculate_note_frequencies` (identical in both classes): a `Counter`
incremented once per occurrence of each (lowercased) note of each stored
fragrance. -/
def noteFrequencies (fs : List Fragrance) : List (String × ℕ) :=
  (fragValues fs).foldl
    (fun m f => f.notes.foldl (fun m2 n => cntIncr m2 (pyLower n)) m) []

/-- `_calculate_accord_frequencies` (identical in both classes). -/
def accordFrequencies (fs : List Fragrance) : List (String × ℕ) :=
  (fragValues fs).foldl
    (fun m f => f.accords.foldl (fun m2 a => cntIncr m2 (pyLower a)) m) []

/-- `self.max_ratings = max(f.num_ratings for f in fragrances) if fragrances
else 1`. -/
def maxRatings (fs : List Fragrance) : ℤ :=
  match fs with
  | [] => 1
  | f :: rest => rest.foldl (fun m g => max m g.num_ratings) f.num_ratings

/-! ## Quality estimator (identical `_wilson_score`,
`_calculate_quality_score`, `_calculate_popularity_score` in both classes) -/

/-- The expression under the square root in `_wilson_score`. -/
noncomputable def wilsonRadicand (positive : ℝ) (total : ℤ) : ℝ :=
  let p := positive / (total : ℝ)
  (p * (1 - p) + 1.96 * 1.96 / (4 * (total : ℝ))) / (total : ℝ)

/-- `_wilson_score`: Wilson lower confidence bound with z = 1.96, clamped
below at 0. -/
noncomputable def wilsonScore (positive : ℝ) (total : ℤ) : ℝ :=
  if total = 0 then 0
  else
    let p := positive / (total : ℝ)
    let n : ℝ := (total : ℝ)
    let z : ℝ := 1.96
    let denominator := 1 + z * z / n
    let numerator := p + z * z / (2 * n) - z * Real.sqrt (wilsonRadicand positive total)
    max (numerator / denominator) 0

/-- `_calculate_quality_score`: zero without ratings, otherwise the Wilson
bound over the pseudo-positive count `num_ratings * max((avg-2.5)/2.5, 0)`. -/
noncomputable def calcQualityScore (avg : ℝ) (num : ℤ) : ℝ :=
  if num = 0 ∨ avg = 0 then 0
  else wilsonScore ((num : ℝ) * max ((avg - 2.5) / 2.5) 0) num

/-- `_calculate_popularity_score`: zero without ratings, otherwise
`min(log(num+1)/log(max_ratings+1), 1.0)`. -/
noncomputable def calcPopularityScore (maxR : ℤ) (num : ℤ) : ℝ :=
  if num = 0 then 0
  else min (Real.log ((num : ℝ) + 1) / Real.log ((maxR : ℝ) + 1)) 1

/-! ## Component weights (instance constants in the two `__init__`s) -/

namespace NoteBasedRecommender

noncomputable def NOTE_PREFERENCE_WEIGHT : ℝ := 0.45

noncomputable def ACCORD_PREFERENCE_WEIGHT : ℝ := 0.30

noncomputable def QUALITY_WEIGHT : ℝ := 0.20

noncomputable def POPULARITY_WEIGHT : ℝ := 0.05

end NoteBasedRecommender

namespace SimilarityRecommender

noncomputable def NOTE_WEIGHT : ℝ := 0.40

noncomputable def ACCORD_WEIGHT : ℝ := 0.25

noncomputable def QUALITY_WEIGHT : ℝ := 0.25

noncomputable def POPULARITY_WEIGHT : ℝ := 0.08

noncomputable def DIVERSITY_WEIGHT : ℝ := 0.02

noncomputable def TOP_NOTE_WEIGHT : ℝ := 0.25

noncomputable def MIDDLE_NOTE_WEIGHT : ℝ := 0.40

noncomputable def BASE_NOTE_WEIGHT : ℝ := 0.35

end SimilarityRecommender

/-! ## Preference recommender (`NoteBasedRecommender`) -/

/-- The note rarity multiplier `1 + (1/ln(frequency+1)) * 0.5` applied to a
matched preferred note in `_calculate_note_preference_match`. -/
noncomputable def noteRarityMultiplier (freq : ℕ) : ℝ :=
  1 + (1 / Real.log ((freq : ℝ) + 1)) * 0.5

/-- The accord rarity multiplier `1 + (1/ln(frequency+1)) * 0.3` from
`_calculate_accord_preference_match`. -/
noncomputable def accordRarityMultiplier (freq : ℕ) : ℝ :=
  1 + (1 / Real.log ((freq : ℝ) + 1)) * 0.3

/-- The lowercased set of a note/accord list (`{x.lower() for x in l}`). -/
def lowerSetF (l : List String) : Finset String := (l.map pyLower).toFinset

/-- `_calculate_note_preference_match`: build the `{name.lower():
importance}` dict, accumulate `importance * rarity_multiplier` over preferred
notes present in the fragrance note set, normalize by the total declared
importance, add the coverage bonus `0.2 * matched/declared`, clamp at 1. -/
noncomputable def calcNotePrefMatch (noteFreqs : List (String × ℕ))
    (fragranceNotes : List String) (prefs : List NotePreference) : ℝ :=
  if prefs.isEmpty || fragranceNotes.isEmpty then 0
  else
    let userPrefs := buildDict (prefs.map (fun p => (pyLower p.name, p.importance)))
    let noteSet := lowerSetF fragranceNotes
    let totalWeight : ℤ := (userPrefs.map (fun p => p.2)).sum
    let matchedWeight : ℝ :=
      (userPrefs.map (fun p =>
        if p.1 ∈ noteSet then
          (p.2 : ℝ) * noteRarityMultiplier (dictGet noteFreqs p.1 1)
        else 0)).sum
    if totalWeight = 0 then 0
    else
      let prefMatch := matchedWeight / (totalWeight : ℝ)
      let coverage : ℝ :=
        ((noteSet ∩ (userPrefs.map (fun p => p.1)).toFinset).card : ℝ) /
          (userPrefs.length : ℝ)
      min (prefMatch + coverage * 0.2) 1

/-- `_calculate_accord_preference_match`: identical shape with rarity
coefficient 0.3 and coverage coefficient 0.25. -/
noncomputable def calcAccordPrefMatch (accordFreqs : List (String × ℕ))
    (fragranceAccords : List String) (prefs : List NotePreference) : ℝ :=
  if prefs.isEmpty || fragranceAccords.isEmpty then 0
  else
    let userPrefs := buildDict (prefs.map (fun p => (pyLower p.name, p.importance)))
    let accordSet := lowerSetF fragranceAccords
    let totalWeight : ℤ := (userPrefs.map (fun p => p.2)).sum
    let matchedWeight : ℝ :=
      (userPrefs.map (fun p =>
        if p.1 ∈ accordSet then
          (p.2 : ℝ) * accordRarityMultiplier (dictGet accordFreqs p.1 1)
        else 0)).sum
    if totalWeight = 0 then 0
    else
      let prefMatch := matchedWeight / (totalWeight : ℝ)
      let coverage : ℝ :=
        ((accordSet ∩ (userPrefs.map (fun p => p.1)).toFinset).card : ℝ) /
          (userPrefs.length : ℝ)
      min (prefMatch + coverage * 0.25) 1

/-- One candidate scored by `NoteBasedRecommender.get_recommendations`:
components, weighted final score, explanation mapping. -/
noncomputable def noteBasedResult (fs : List Fragrance)
    (prefNotes prefAccords : List NotePreference) (f : Fragrance) :
    RecommendationResult :=
  let note_match := calcNotePrefMatch (noteFrequencies fs) f.notes prefNotes
  let accord_match := calcAccordPrefMatch (accordFrequencies fs) f.accords prefAccords
  let quality_score := calcQualityScore f.avg_rating f.num_ratings
  let popularity_score := calcPopularityScore (maxRatings fs) f.num_ratings
  let final_score :=
    note_match * NoteBasedRecommender.NOTE_PREFERENCE_WEIGHT +
    accord_match * NoteBasedRecommender.ACCORD_PREFERENCE_WEIGHT +
    quality_score * NoteBasedRecommender.QUALITY_WEIGHT +
    popularity_score * NoteBasedRecommender.POPULARITY_WEIGHT
  { fragrance := f, score := final_score,
    explanation :=
      [("note_preference_match", note_match),
       ("accord_preference_match", accord_match),
       ("quality_score", quality_score),
       ("popularity_score", popularity_score),
       ("final_score", final_score)] }

/-- `candidates.sort(key=lambda x: x.score, reverse=True)`: a stable
descending sort on the score, as CPython's stable `list.sort` with
`reverse=True` produces. -/
noncomputable def sortByScoreDesc (l : List RecommendationResult) :
    List RecommendationResult :=
  l.mergeSort (fun a b => decide (b.score ≤ a.score))

/-- The full scored and sorted candidate list of
`NoteBasedRecommender.get_recommendations` before truncation (it does not
depend on `limit`). -/
noncomputable def noteScoredSorted (fs : List Fragrance)
    (prefNotes prefAccords : List NotePreference) : List RecommendationResult :=
  sortByScoreDesc ((fragValues fs).map (noteBasedResult fs prefNotes prefAccords))

/-- `NoteBasedRecommender.get_recommendations`: raise `ValueError` when both
preference lists are empty, otherwise score every stored fragrance, sort by
score descending and truncate to `limit`. -/
noncomputable def noteGetRecommendations (fs : List Fragrance)
    (prefNotes prefAccords : List NotePreference) (limit : ℕ) :
    Except String (List RecommendationResult) :=
  if prefNotes.isEmpty && prefAccords.isEmpty then
    .error "Must provide either preferred notes or preferred accords"
  else .ok ((noteScoredSorted fs prefNotes prefAccords).take limit)

/-! ## Similarity recommender, single-target mode -/

/-- `_get_position_bonus`: start at 1.0, add the position weight for every
pyramid position the note occupies in both target and candidate, cap at 2. -/
noncomputable def positionBonus (note : String) (target candidate : Fragrance) : ℝ :=
  min (1 +
    (if note ∈ target.top_notes.map pyLower ∧ note ∈ candidate.top_notes.map pyLower
     then SimilarityRecommender.TOP_NOTE_WEIGHT else 0) +
    (if note ∈ target.middle_notes.map pyLower ∧ note ∈ candidate.middle_notes.map pyLower
     then SimilarityRecommender.MIDDLE_NOTE_WEIGHT else 0) +
    (if note ∈ target.base_notes.map pyLower ∧ note ∈ candidate.base_notes.map pyLower
     then SimilarityRecommender.BASE_NOTE_WEIGHT else 0)) 2

/-- `_calculate_note_similarity`: rarity- and position-weighted Jaccard blend
`0.4 * jaccard + 0.6 * min(weighted/union, 1)`, clamped at 1. -/
noncomputable def calcNoteSimilarity (noteFreqs : List (String × ℕ))
    (targetNotes candidateNotes : List String)
    (target candidate : Fragrance) : ℝ :=
  if targetNotes.isEmpty || candidateNotes.isEmpty then 0
  else
    let targetSet := lowerSetF targetNotes
    let candidateSet := lowerSetF candidateNotes
    let inter := targetSet ∩ candidateSet
    let union := targetSet ∪ candidateSet
    if inter = ∅ then 0
    else
      let weighted : ℝ :=
        ∑ note ∈ inter,
          (1 / Real.log (((dictGet noteFreqs note 1 : ℕ) : ℝ) + 1)) *
            positionBonus note target candidate
      let jaccard : ℝ := (inter.card : ℝ) / (union.card : ℝ)
      min (jaccard * 0.4 + (min (weighted / (union.card : ℝ)) 1) * 0.6) 1

/-- The lowercased-and-stripped accord set
(`{accord.lower().strip() for accord in accords}`). -/
def lowerStripSetF (l : List String) : Finset String :=
  (l.map (fun a => pyStrip (pyLower a))).toFinset

/-- `_calculate_accord_similarity`: rarity-weighted Jaccard blend
`0.3 * jaccard + 0.7 * min(weighted/union, 1)`, clamped at 1. -/
noncomputable def calcAccordSimilarity (accordFreqs : List (String × ℕ))
    (targetAccords candidateAccords : List String) : ℝ :=
  if targetAccords.isEmpty || candidateAccords.isEmpty then 0
  else
    let targetSet := lowerStripSetF targetAccords
    let candidateSet := lowerStripSetF candidateAccords
    let inter := targetSet ∩ candidateSet
    let union := targetSet ∪ candidateSet
    if inter = ∅ then 0
    else
      let weighted : ℝ :=
        ∑ accord ∈ inter, 1 / Real.log (((dictGet accordFreqs accord 1 : ℕ) : ℝ) + 1)
      let jaccard : ℝ := (inter.card : ℝ) / (union.card : ℝ)
      min (jaccard * 0.3 + (min (weighted / (union.card : ℝ)) 1) * 0.7) 1

/-- One candidate scored by `_get_single_fragrance_recommendations`. -/
noncomputable def similarityResultSingle (fs : List Fragrance)
    (target candidate : Fragrance) : RecommendationResult :=
  let note_similarity :=
    calcNoteSimilarity (noteFrequencies fs) target.notes candidate.notes target candidate
  let accord_similarity :=
    calcAccordSimilarity (accordFrequencies fs) target.accords candidate.accords
  let quality_score := calcQualityScore candidate.avg_rating candidate.num_ratings
  let popularity_score := calcPopularityScore (maxRatings fs) candidate.num_ratings
  let final_score :=
    note_similarity * SimilarityRecommender.NOTE_WEIGHT +
    accord_similarity * SimilarityRecommender.ACCORD_WEIGHT +
    quality_score * SimilarityRecommender.QUALITY_WEIGHT +
    popularity_score * SimilarityRecommender.POPULARITY_WEIGHT
  { fragrance := candidate, score := final_score,
    explanation :=
      [("note_similarity", note_similarity),
       ("accord_similarity", accord_similarity),
       ("quality_score", quality_score),
       ("popularity_score", popularity_score),
       ("final_score", final_score)] }

/-- `_get_single_fragrance_recommendations` before truncation: skip the
target's own dict entry, score the rest, sort by score descending. -/
noncomputable def singleRecsSorted (fs : List Fragrance) (target : Fragrance) :
    List RecommendationResult :=
  sortByScoreDesc
    (((fragDict fs).filter (fun p => !(p.1 == target.id))).map
      (fun p => similarityResultSingle fs target p.2))

/-! ## Similarity recommender, collection mode -/

/-- `max(fragrance.avg_rating / 5.0, 0.6)`: the quality weight a target
contributes to the collection profile. -/
noncomputable def qualityWeight (f : Fragrance) : ℝ := max (f.avg_rating / 5) 0.6

/-- Key set of the collection profile's note `Counter` (a note is a key
exactly when it occurs in some target). -/
def collNoteKeys (tfs : List Fragrance) : Finset String :=
  (tfs.flatMap (fun t => t.notes.map pyLower)).toFinset

/-- `collection_profile['note_preferences'][note]`: every occurrence of the
note in a target adds that target's quality weight (0 for absent keys, the
`Counter.get(note, 0)` default). -/
noncomputable def collNoteCount (tfs : List Fragrance) (note : String) : ℝ :=
  (tfs.map (fun t => qualityWeight t * ((t.notes.map pyLower).count note : ℝ))).sum

/-- `sum(collection_notes.values())`. -/
noncomputable def collNoteTotal (tfs : List Fragrance) : ℝ :=
  ∑ n ∈ collNoteKeys tfs, collNoteCount tfs n

/-- Key set of the collection profile's accord `Counter`. -/
def collAccordKeys (tfs : List Fragrance) : Finset String :=
  (tfs.flatMap (fun t => t.accords.map pyLower)).toFinset

/-- `collection_profile['accord_preferences'][accord]`. -/
noncomputable def collAccordCount (tfs : List Fragrance) (accord : String) : ℝ :=
  (tfs.map (fun t => qualityWeight t * ((t.accords.map pyLower).count accord : ℝ))).sum

/-- `sum(collection_accords.values())`. -/
noncomputable def collAccordTotal (tfs : List Fragrance) : ℝ :=
  ∑ a ∈ collAccordKeys tfs, collAccordCount tfs a

/-- `_get_collection_position_bonus`: start at 1.0, add weighted bonuses for
the candidate's own positions containing the note, cap at 1.8. -/
noncomputable def collectionPositionBonus (note : String) (candidate : Fragrance) : ℝ :=
  min (1 +
    (if note ∈ candidate.middle_notes.map pyLower
     then SimilarityRecommender.MIDDLE_NOTE_WEIGHT * 0.8 else 0) +
    (if note ∈ candidate.base_notes.map pyLower
     then SimilarityRecommender.BASE_NOTE_WEIGHT * 0.9 else 0) +
    (if note ∈ candidate.top_notes.map pyLower
     then SimilarityRecommender.TOP_NOTE_WEIGHT * 0.6 else 0)) 1.8

/-- `_calculate_note_similarity_multi`: preference-strength, rarity and
position weighted accumulation over the candidate's note set, blended
`0.8 * weighted + 0.2 * coverage`, clamped at 1. -/
noncomputable def calcNoteSimilarityMulti (noteFreqs : List (String × ℕ))
    (tfs : List Fragrance) (candidate : Fragrance) : ℝ :=
  if collNoteKeys tfs = ∅ ∨ candidate.notes.isEmpty then 0
  else
    let candidateNotes := lowerSetF candidate.notes
    if candidateNotes = ∅ then 0
    else
      let total := collNoteTotal tfs
      let weighted : ℝ :=
        ∑ note ∈ candidateNotes,
          if note ∈ collNoteKeys tfs then
            (collNoteCount tfs note / total) *
              (1 / Real.log (((dictGet noteFreqs note 1 : ℕ) : ℝ) + 1)) *
              collectionPositionBonus note candidate
          else 0
      let coverage : ℝ :=
        ((candidateNotes ∩ collNoteKeys tfs).card : ℝ) / (candidateNotes.card : ℝ)
      min (weighted * 0.8 + coverage * 0.2) 1

/-- `_calculate_accord_similarity_multi`: the accord analogue (candidate set
lowercased and stripped), blended `0.7 * weighted + 0.3 * coverage`. -/
noncomputable def calcAccordSimilarityMulti (accordFreqs : List (String × ℕ))
    (tfs : List Fragrance) (candidateAccords : List String) : ℝ :=
  if collAccordKeys tfs = ∅ ∨ candidateAccords.isEmpty then 0
  else
    let candidateSet := lowerStripSetF candidateAccords
    if candidateSet = ∅ then 0
    else
      let total := collAccordTotal tfs
      let weighted : ℝ :=
        ∑ accord ∈ candidateSet,
          if accord ∈ collAccordKeys tfs then
            (collAccordCount tfs accord / total) *
              (1 / Real.log (((dictGet accordFreqs accord 1 : ℕ) : ℝ) + 1))
          else 0
      let coverage : ℝ :=
        ((candidateSet ∩ collAccordKeys tfs).card : ℝ) / (candidateSet.card : ℝ)
      min (weighted * 0.7 + coverage * 0.3) 1

/-- `_calculate_diversity_bonus`: zero for fewer than two targets; otherwise
each candidate accord whose share of the collection's accord weight is below
0.3 adds `0.3 - share`, capped at 0.5. -/
noncomputable def calcDiversityBonus (tfs : List Fragrance) (candidate : Fragrance) : ℝ :=
  if tfs.length < 2 then 0
  else
    let candAccords := (candidate.accords.map pyLower).toFinset
    let total := collAccordTotal tfs
    let d : ℝ :=
      ∑ accord ∈ candAccords,
        if 0 < total ∧ collAccordCount tfs accord / total < 0.3 then
          0.3 - collAccordCount tfs accord / total
        else 0
    min d 0.5

/-- One candidate scored by `_get_collection_recommendations`. -/
noncomputable def similarityResultCollection (fs : List Fragrance)
    (tfs : List Fragrance) (candidate : Fragrance) : RecommendationResult :=
  let note_similarity := calcNoteSimilarityMulti (noteFrequencies fs) tfs candidate
  let accord_similarity :=
    calcAccordSimilarityMulti (accordFrequencies fs) tfs candidate.accords
  let quality_score := calcQualityScore candidate.avg_rating candidate.num_ratings
  let popularity_score := calcPopularityScore (maxRatings fs) candidate.num_ratings
  let diversity_bonus := calcDiversityBonus tfs candidate
  let final_score :=
    note_similarity * SimilarityRecommender.NOTE_WEIGHT +
    accord_similarity * SimilarityRecommender.ACCORD_WEIGHT +
    quality_score * SimilarityRecommender.QUALITY_WEIGHT +
    popularity_score * SimilarityRecommender.POPULARITY_WEIGHT +
    diversity_bonus * SimilarityRecommender.DIVERSITY_WEIGHT
  { fragrance := candidate, score := final_score,
    explanation :=
      [("note_similarity", note_similarity),
       ("accord_similarity", accord_similarity),
       ("quality_score", quality_score),
       ("popularity_score", popularity_score),
       ("diversity_bonus", diversity_bonus),
       ("final_score", final_score)] }

/-- `_get_collection_recommendations` before truncation: skip every candidate
whose dict key is one of the target ids, score the rest, sort descending. -/
noncomputable def collectionRecsSorted (fs : List Fragrance)
    (tfs : List Fragrance) : List RecommendationResult :=
  sortByScoreDesc
    (((fragDict fs).filter
        (fun p => !((tfs.map (fun t => t.id)).contains p.1))).map
      (fun p => similarityResultCollection fs tfs p.2))

/-- The complete ranked list a similarity request produces once its targets
validated, mode chosen by the number of resolved targets (it does not depend
on `limit`). -/
noncomputable def simScoredSorted (fs : List Fragrance) (targets : List String) :
    List RecommendationResult :=
  match targets.filterMap (fragLookup fs) with
  | [t] => singleRecsSorted fs t
  | tfs => collectionRecsSorted fs tfs

/-- `SimilarityRecommender.get_recommendations` with the target ids already
normalized to a list: raise `ValueError` naming the first id missing from the
catalog, otherwise dispatch on single-target versus collection mode and
truncate the sorted candidates to `limit`. -/
noncomputable def simGetRecommendations (fs : List Fragrance)
    (targets : List String) (limit : ℕ) :
    Except String (List RecommendationResult) :=
  match targets.find? (fun id => (fragLookup fs id).isNone) with
  | some missing => .error ("Fragrance " ++ missing ++ " not found")
  | none => .ok ((simScoredSorted fs targets).take limit)

/-! ## Infrastructure lemmas -/

theorem dictUpd_mem {α : Type} {m : List (String × α)} {k : String} {v : α}
    {p : String × α} (h : p ∈ dictUpd m k v) : p ∈ m ∨ p = (k, v) := by
  unfold dictUpd at h
  split at h
  · rcases List.mem_map.mp h with ⟨q, hq, hqe⟩
    by_cases hk : q.1 == k
    · rw [if_pos hk] at hqe; right; exact hqe.symm
    · rw [if_neg hk] at hqe; left; exact hqe ▸ hq
  · rcases List.mem_append.mp h with h2 | h2
    · left; exact h2
    · right; simpa using h2

theorem buildDict_subset {α : Type} (l : List (String × α)) :
    ∀ p ∈ buildDict l, p ∈ l := by
  unfold buildDict
  suffices h : ∀ (l2 acc : List (String × α)), (∀ p ∈ acc, p ∈ l) →
      (∀ p ∈ l2, p ∈ l) →
      ∀ p ∈ l2.foldl (fun m q => dictUpd m q.1 q.2) acc, p ∈ l by
    intro p hp
    exact h l [] (by simp) (fun p hp => hp) p hp
  intro l2
  induction l2 with
  | nil => intro acc hacc _ p hp; exact hacc p hp
  | cons q t ih =>
    intro acc hacc hl2 p hp
    simp only [List.foldl_cons] at hp
    refine ih (dictUpd acc q.1 q.2) ?_ (fun r hr => hl2 r (by simp [hr])) p hp
    intro r hr
    rcases dictUpd_mem hr with h | h
    · exact hacc r h
    · subst h; exact hl2 q (by simp)

theorem fragDict_mem {fs : List Fragrance} {p : String × Fragrance}
    (h : p ∈ fragDict fs) : p.2 ∈ fs ∧ p.2.id = p.1 := by
  have := buildDict_subset _ p h
  simp only [List.mem_map] at this
  obtain ⟨f, hf, hfe⟩ := this
  subst hfe
  exact ⟨hf, rfl⟩

theorem fragValues_mem {fs : List Fragrance} {f : Fragrance}
    (h : f ∈ fragValues fs) : f ∈ fs := by
  unfold fragValues at h
  simp only [List.mem_map] at h
  obtain ⟨p, hp, hpe⟩ := h
  exact hpe ▸ (fragDict_mem hp).1

theorem fragLookup_some {fs : List Fragrance} {id : String} {f : Fragrance}
    (h : fragLookup fs id = some f) : f ∈ fs ∧ f.id = id := by
  unfold fragLookup at h
  simp only [Option.map_eq_some'] at h
  obtain ⟨p, hp, hpe⟩ := h
  have hm := fragDict_mem (List.mem_of_find?_eq_some hp)
  have hk := List.find?_some hp
  simp only [beq_iff_eq] at hk
  subst hpe
  exact ⟨hm.1, hm.2.trans hk⟩

theorem le_foldl_max (l : List Fragrance) (init : ℤ) :
    init ≤ l.foldl (fun m g => max m g.num_ratings) init := by
  induction l generalizing init with
  | nil => exact le_refl _
  | cons a t ih => exact le_trans (le_max_left init a.num_ratings) (ih _)

theorem mem_le_foldl_max {l : List Fragrance} {x : Fragrance} (init : ℤ)
    (h : x ∈ l) : x.num_ratings ≤ l.foldl (fun m g => max m g.num_ratings) init := by
  induction l generalizing init with
  | nil => simp at h
  | cons a t ih =>
    simp only [List.mem_cons] at h
    rcases h with rfl | h
    · exact le_trans (le_max_right init x.num_ratings) (le_foldl_max t _)
    · exact ih _ h

theorem maxRatings_ge {fs : List Fragrance} {f : Fragrance} (h : f ∈ fs) :
    f.num_ratings ≤ maxRatings fs := by
  match fs with
  | [] => simp at h
  | g :: rest =>
    simp only [List.mem_cons] at h
    unfold maxRatings
    rcases h with rfl | h
    · exact le_foldl_max rest f.num_ratings
    · exact mem_le_foldl_max g.num_ratings h

theorem cntIncr_pos {m : List (String × ℕ)} {k : String}
    (hm : ∀ p ∈ m, 1 ≤ p.2) : ∀ p ∈ cntIncr m k, 1 ≤ p.2 := by
  intro p hp
  unfold cntIncr at hp
  split at hp
  · rcases List.mem_map.mp hp with ⟨q, hq, hqe⟩
    by_cases hk : q.1 == k
    · rw [if_pos hk] at hqe
      have := hm q hq
      rw [← hqe]
      simp only
      omega
    · rw [if_neg hk] at hqe; exact hqe ▸ hm q hq
  · rcases List.mem_append.mp hp with h2 | h2
    · exact hm p h2
    · have : p = (k, 1) := by simpa using h2
      subst this; exact le_refl 1

theorem counterFold_pos {notes : List String} {m : List (String × ℕ)}
    (hm : ∀ p ∈ m, 1 ≤ p.2) :
    ∀ p ∈ notes.foldl (fun m2 n => cntIncr m2 (pyLower n)) m, 1 ≤ p.2 := by
  induction notes generalizing m with
  | nil => exact hm
  | cons n t ih => exact ih (cntIncr_pos hm)

theorem noteFrequencies_pos (fs : List Fragrance) :
    ∀ p ∈ noteFrequencies fs, 1 ≤ p.2 := by
  unfold noteFrequencies
  suffices h : ∀ (l : List Fragrance) (m : List (String × ℕ)),
      (∀ p ∈ m, 1 ≤ p.2) →
      ∀ p ∈ l.foldl (fun m f => f.notes.foldl (fun m2 n => cntIncr m2 (pyLower n)) m) m,
        1 ≤ p.2 by
    exact h (fragValues fs) [] (by simp)
  intro l
  induction l with
  | nil => intro m hm; exact hm
  | cons f t ih => intro m hm; exact ih _ (counterFold_pos hm)

theorem accordFrequencies_pos (fs : List Fragrance) :
    ∀ p ∈ accordFrequencies fs, 1 ≤ p.2 := by
  unfold accordFrequencies
  suffices h : ∀ (l : List Fragrance) (m : List (String × ℕ)),
      (∀ p ∈ m, 1 ≤ p.2) →
      ∀ p ∈ l.foldl (fun m f => f.accords.foldl (fun m2 a => cntIncr m2 (pyLower a)) m) m,
        1 ≤ p.2 by
    exact h (fragValues fs) [] (by simp)
  intro l
  induction l with
  | nil => intro m hm; exact hm
  | cons f t ih =>
    intro m hm
    refine ih _ ?_
    have : ∀ (accords : List String) (m : List (String × ℕ)),
        (∀ p ∈ m, 1 ≤ p.2) →
        ∀ p ∈ accords.foldl (fun m2 a => cntIncr m2 (pyLower a)) m, 1 ≤ p.2 := by
      intro accords
      induction accords with
      | nil => intro m hm; exact hm
      | cons a t ihh => intro m hm; exact ihh _ (cntIncr_pos hm)
    exact this f.accords m hm

theorem dictGet_default_one {m : List (String × ℕ)} (k : String)
    (hm : ∀ p ∈ m, 1 ≤ p.2) : 1 ≤ dictGet m k 1 := by
  unfold dictGet
  cases hf : m.find? (fun p => p.1 == k) with
  | none => simp
  | some p =>
    simp only [Option.map_some', Option.getD_some]
    exact hm p (List.mem_of_find?_eq_some hf)

theorem sortByScoreDesc_pairwise (l : List RecommendationResult) :
    (sortByScoreDesc l).Pairwise (fun a b => b.score ≤ a.score) := by
  have h := @List.sorted_mergeSort RecommendationResult
    (fun a b => decide (b.score ≤ a.score))
    (by intro a b c hab hbc
        simp only [decide_eq_true_eq] at *
        exact le_trans hbc hab)
    (by intro a b
        simp only [Bool.or_eq_true, decide_eq_true_eq]
        exact le_total b.score a.score) l
  refine List.Pairwise.imp ?_ h
  intro a b hb
  simpa using hb

theorem sortByScoreDesc_mem {l : List RecommendationResult}
    {r : RecommendationResult} (h : r ∈ sortByScoreDesc l) : r ∈ l := by
  unfold sortByScoreDesc at h
  exact List.mem_mergeSort.mp h

/-! ## Data-model preconditions -/

/-- The data-model preconditions on catalog records: `avg_rating` in `[0,5]`,
`num_ratings` a non-negative integer. -/
def validCatalog (fs : List Fragrance) : Prop :=
  ∀ f ∈ fs, 0 ≤ f.avg_rating ∧ f.avg_rating ≤ 5 ∧ 0 ≤ f.num_ratings

/-- A valid preference list: importances on the 1-10 scale. -/
def validPrefList (l : List NotePreference) : Prop :=
  ∀ p ∈ l, 1 ≤ p.importance ∧ p.importance ≤ 10

/-! ## Bound lemmas for the score components -/

theorem log_nat_succ_pos {freq : ℕ} (h : 1 ≤ freq) :
    0 < Real.log ((freq : ℝ) + 1) := by
  apply Real.log_pos
  have : (1 : ℝ) ≤ (freq : ℝ) := by exact_mod_cast h
  linarith

theorem noteRarityMultiplier_pos {freq : ℕ} (h : 1 ≤ freq) :
    0 < noteRarityMultiplier freq := by
  unfold noteRarityMultiplier
  have hl := log_nat_succ_pos h
  have : 0 < 1 / Real.log ((freq : ℝ) + 1) := by positivity
  linarith

theorem accordRarityMultiplier_pos {freq : ℕ} (h : 1 ≤ freq) :
    0 < accordRarityMultiplier freq := by
  unfold accordRarityMultiplier
  have hl := log_nat_succ_pos h
  have : 0 < 1 / Real.log ((freq : ℝ) + 1) := by positivity
  linarith

theorem wilsonScore_bounds (positive : ℝ) (total : ℤ) (hpos : 0 ≤ positive)
    (hle : positive ≤ (total : ℝ)) :
    0 ≤ wilsonScore positive total ∧ wilsonScore positive total ≤ 1 := by
  unfold wilsonScore
  split
  · exact ⟨le_refl 0, zero_le_one⟩
  · rename_i htot
    have htot1 : 1 ≤ total := by
      rcases lt_or_le total 1 with h | h
      · exfalso
        have h0 : total ≤ 0 := by omega
        have : (total : ℝ) ≤ 0 := by exact_mod_cast h0
        have : (total : ℝ) = 0 := le_antisymm this (le_trans hpos hle)
        have : total = 0 := by exact_mod_cast this
        exact htot this
      · exact h
    have hn : (1 : ℝ) ≤ (total : ℝ) := by exact_mod_cast htot1
    have hnpos : (0 : ℝ) < (total : ℝ) := by linarith
    constructor
    · exact le_max_right _ 0
    · apply max_le _ zero_le_one
      have hden : (0 : ℝ) < 1 + 1.96 * 1.96 / (total : ℝ) := by positivity
      rw [div_le_one hden]
      have hp : positive / (total : ℝ) ≤ 1 := (div_le_one hnpos).mpr hle
      have hs : 0 ≤ Real.sqrt (wilsonRadicand positive total) := Real.sqrt_nonneg _
      have hhalf : 1.96 * 1.96 / (2 * (total : ℝ)) ≤ 1.96 * 1.96 / (total : ℝ) := by
        apply div_le_div_of_nonneg_left (by norm_num) hnpos
        linarith
      nlinarith

theorem calcQualityScore_bounds (avg : ℝ) (num : ℤ) (h0 : 0 ≤ avg)
    (h5 : avg ≤ 5) (hn : 0 ≤ num) :
    0 ≤ calcQualityScore avg num ∧ calcQualityScore avg num ≤ 1 := by
  unfold calcQualityScore
  split
  · exact ⟨le_refl 0, zero_le_one⟩
  · rename_i hcond
    have hnum : num ≠ 0 := fun h => hcond (Or.inl h)
    have hn1 : (0 : ℝ) ≤ (num : ℝ) := by exact_mod_cast hn
    have hratio0 : (0 : ℝ) ≤ max ((avg - 2.5) / 2.5) 0 := le_max_right _ 0
    have hratio1 : max ((avg - 2.5) / 2.5) 0 ≤ 1 := by
      apply max_le _ zero_le_one
      rw [div_le_one (by norm_num : (0 : ℝ) < 2.5)]
      linarith
    apply wilsonScore_bounds
    · positivity
    · calc (num : ℝ) * max ((avg - 2.5) / 2.5) 0 ≤ (num : ℝ) * 1 :=
        mul_le_mul_of_nonneg_left hratio1 hn1
      _ = (num : ℝ) := mul_one _

theorem calcPopularityScore_bounds (maxR num : ℤ) (hn : 0 ≤ num)
    (hm : num ≤ maxR) :
    0 ≤ calcPopularityScore maxR num ∧ calcPopularityScore maxR num ≤ 1 := by
  unfold calcPopularityScore
  split
  · exact ⟨le_refl 0, zero_le_one⟩
  · rename_i hnum
    have h1 : 1 ≤ num := by omega
    have hm1 : 1 ≤ maxR := le_trans h1 hm
    have hlnum : 0 ≤ Real.log ((num : ℝ) + 1) := by
      apply Real.log_nonneg
      have : (1 : ℝ) ≤ (num : ℝ) := by exact_mod_cast h1
      linarith
    have hlmax : 0 < Real.log ((maxR : ℝ) + 1) := by
      apply Real.log_pos
      have : (1 : ℝ) ≤ (maxR : ℝ) := by exact_mod_cast hm1
      linarith
    exact ⟨le_min (by positivity) zero_le_one, min_le_right _ 1⟩

theorem calcNotePrefMatch_bounds (noteFreqs : List (String × ℕ))
    (notes : List String) (prefs : List NotePreference)
    (hfreq : ∀ p ∈ noteFreqs, 1 ≤ p.2)
    (hpref : ∀ p ∈ prefs, 0 ≤ p.importance) :
    0 ≤ calcNotePrefMatch noteFreqs notes prefs ∧
      calcNotePrefMatch noteFreqs notes prefs ≤ 1 := by
  unfold calcNotePrefMatch
  split
  · exact ⟨le_refl 0, zero_le_one⟩
  · dsimp only
    split
    · exact ⟨le_refl 0, zero_le_one⟩
    · rename_i hne htw
      refine ⟨le_min ?_ zero_le_one, min_le_right _ 1⟩
      have hvals : ∀ p ∈ buildDict (prefs.map (fun p => (pyLower p.name, p.importance))),
          0 ≤ p.2 := by
        intro p hp
        rcases List.mem_map.mp (buildDict_subset _ p hp) with ⟨q, hq, rfl⟩
        exact hpref q hq
      have hmw : 0 ≤ ((buildDict (prefs.map (fun p => (pyLower p.name, p.importance)))).map
          (fun p => if p.1 ∈ lowerSetF notes then
            (p.2 : ℝ) * noteRarityMultiplier (dictGet noteFreqs p.1 1) else 0)).sum := by
        apply List.sum_nonneg
        intro x hx
        rcases List.mem_map.mp hx with ⟨p, hp, rfl⟩
        split
        · apply mul_nonneg
          · exact_mod_cast hvals p hp
          · exact (noteRarityMultiplier_pos (dictGet_default_one p.1 hfreq)).le
        · exact le_refl 0
      have htw0 : (0 : ℤ) ≤ ((buildDict (prefs.map (fun p => (pyLower p.name, p.importance)))).map
          (fun p => p.2)).sum := by
        apply List.sum_nonneg
        intro x hx
        rcases List.mem_map.mp hx with ⟨p, hp, rfl⟩
        exact hvals p hp
      have htwR : (0 : ℝ) ≤ ((((buildDict (prefs.map (fun p => (pyLower p.name, p.importance)))).map
          (fun p => p.2)).sum : ℤ) : ℝ) := by exact_mod_cast htw0
      have h1 : 0 ≤ ((buildDict (prefs.map (fun p => (pyLower p.name, p.importance)))).map
          (fun p => if p.1 ∈ lowerSetF notes then
            (p.2 : ℝ) * noteRarityMultiplier (dictGet noteFreqs p.1 1) else 0)).sum /
          ((((buildDict (prefs.map (fun p => (pyLower p.name, p.importance)))).map
            (fun p => p.2)).sum : ℤ) : ℝ) := div_nonneg hmw htwR
      have h2 : (0 : ℝ) ≤ (((lowerSetF notes ∩
          ((buildDict (prefs.map (fun p => (pyLower p.name, p.importance)))).map
            (fun p => p.1)).toFinset).card : ℝ) /
          (((buildDict (prefs.map (fun p => (pyLower p.name, p.importance)))).length : ℝ))) := by
        positivity
      linarith

theorem calcAccordPrefMatch_bounds (accordFreqs : List (String × ℕ))
    (accords : List String) (prefs : List NotePreference)
    (hfreq : ∀ p ∈ accordFreqs, 1 ≤ p.2)
    (hpref : ∀ p ∈ prefs, 0 ≤ p.importance) :
    0 ≤ calcAccordPrefMatch accordFreqs accords prefs ∧
      calcAccordPrefMatch accordFreqs accords prefs ≤ 1 := by
  unfold calcAccordPrefMatch
  split
  · exact ⟨le_refl 0, zero_le_one⟩
  · dsimp only
    split
    · exact ⟨le_refl 0, zero_le_one⟩
    · rename_i hne htw
      refine ⟨le_min ?_ zero_le_one, min_le_right _ 1⟩
      have hvals : ∀ p ∈ buildDict (prefs.map (fun p => (pyLower p.name, p.importance))),
          0 ≤ p.2 := by
        intro p hp
        rcases List.mem_map.mp (buildDict_subset _ p hp) with ⟨q, hq, rfl⟩
        exact hpref q hq
      have hmw : 0 ≤ ((buildDict (prefs.map (fun p => (pyLower p.name, p.importance)))).map
          (fun p => if p.1 ∈ lowerSetF accords then
            (p.2 : ℝ) * accordRarityMultiplier (dictGet accordFreqs p.1 1) else 0)).sum := by
        apply List.sum_nonneg
        intro x hx
        rcases List.mem_map.mp hx with ⟨p, hp, rfl⟩
        split
        · apply mul_nonneg
          · exact_mod_cast hvals p hp
          · exact (accordRarityMultiplier_pos (dictGet_default_one p.1 hfreq)).le
        · exact le_refl 0
      have htw0 : (0 : ℤ) ≤ ((buildDict (prefs.map (fun p => (pyLower p.name, p.importance)))).map
          (fun p => p.2)).sum := by
        apply List.sum_nonneg
        intro x hx
        rcases List.mem_map.mp hx with ⟨p, hp, rfl⟩
        exact hvals p hp
      have htwR : (0 : ℝ) ≤ ((((buildDict (prefs.map (fun p => (pyLower p.name, p.importance)))).map
          (fun p => p.2)).sum : ℤ) : ℝ) := by exact_mod_cast htw0
      have h1 : 0 ≤ ((buildDict (prefs.map (fun p => (pyLower p.name, p.importance)))).map
          (fun p => if p.1 ∈ lowerSetF accords then
            (p.2 : ℝ) * accordRarityMultiplier (dictGet accordFreqs p.1 1) else 0)).sum /
          ((((buildDict (prefs.map (fun p => (pyLower p.name, p.importance)))).map
            (fun p => p.2)).sum : ℤ) : ℝ) := div_nonneg hmw htwR
      have h2 : (0 : ℝ) ≤ (((lowerSetF accords ∩
          ((buildDict (prefs.map (fun p => (pyLower p.name, p.importance)))).map
            (fun p => p.1)).toFinset).card : ℝ) /
          (((buildDict (prefs.map (fun p => (pyLower p.name, p.importance)))).length : ℝ))) := by
        positivity
      linarith

theorem positionBonus_bounds (note : String) (target candidate : Fragrance) :
    1 ≤ positionBonus note target candidate ∧
      positionBonus note target candidate ≤ 2 := by
  unfold positionBonus
  constructor
  · apply le_min _ (by norm_num)
    have h1 : (0 : ℝ) ≤ (if note ∈ target.top_notes.map pyLower ∧
        note ∈ candidate.top_notes.map pyLower
        then SimilarityRecommender.TOP_NOTE_WEIGHT else 0) := by
      split <;> norm_num [SimilarityRecommender.TOP_NOTE_WEIGHT]
    have h2 : (0 : ℝ) ≤ (if note ∈ target.middle_notes.map pyLower ∧
        note ∈ candidate.middle_notes.map pyLower
        then SimilarityRecommender.MIDDLE_NOTE_WEIGHT else 0) := by
      split <;> norm_num [SimilarityRecommender.MIDDLE_NOTE_WEIGHT]
    have h3 : (0 : ℝ) ≤ (if note ∈ target.base_notes.map pyLower ∧
        note ∈ candidate.base_notes.map pyLower
        then SimilarityRecommender.BASE_NOTE_WEIGHT else 0) := by
      split <;> norm_num [SimilarityRecommender.BASE_NOTE_WEIGHT]
    linarith
  · exact min_le_right _ 2

theorem collectionPositionBonus_bounds (note : String) (candidate : Fragrance) :
    1 ≤ collectionPositionBonus note candidate ∧
      collectionPositionBonus note candidate ≤ 1.8 := by
  unfold collectionPositionBonus
  constructor
  · apply le_min _ (by norm_num)
    have h1 : (0 : ℝ) ≤ (if note ∈ candidate.middle_notes.map pyLower
        then SimilarityRecommender.MIDDLE_NOTE_WEIGHT * 0.8 else 0) := by
      split <;> norm_num [SimilarityRecommender.MIDDLE_NOTE_WEIGHT]
    have h2 : (0 : ℝ) ≤ (if note ∈ candidate.base_notes.map pyLower
        then SimilarityRecommender.BASE_NOTE_WEIGHT * 0.9 else 0) := by
      split <;> norm_num [SimilarityRecommender.BASE_NOTE_WEIGHT]
    have h3 : (0 : ℝ) ≤ (if note ∈ candidate.top_notes.map pyLower
        then SimilarityRecommender.TOP_NOTE_WEIGHT * 0.6 else 0) := by
      split <;> norm_num [SimilarityRecommender.TOP_NOTE_WEIGHT]
    linarith
  · exact min_le_right _ 1.8

theorem calcNoteSimilarity_bounds (noteFreqs : List (String × ℕ))
    (targetNotes candidateNotes : List String) (target candidate : Fragrance)
    (hfreq : ∀ p ∈ noteFreqs, 1 ≤ p.2) :
    0 ≤ calcNoteSimilarity noteFreqs targetNotes candidateNotes target candidate ∧
      calcNoteSimilarity noteFreqs targetNotes candidateNotes target candidate ≤ 1 := by
  unfold calcNoteSimilarity
  split
  · exact ⟨le_refl 0, zero_le_one⟩
  · dsimp only
    split
    · exact ⟨le_refl 0, zero_le_one⟩
    · refine ⟨le_min ?_ zero_le_one, min_le_right _ 1⟩
      have hw : (0 : ℝ) ≤ ∑ note ∈ lowerSetF targetNotes ∩ lowerSetF candidateNotes,
          (1 / Real.log (((dictGet noteFreqs note 1 : ℕ) : ℝ) + 1)) *
            positionBonus note target candidate := by
        apply Finset.sum_nonneg
        intro n _
        apply mul_nonneg
        · have := log_nat_succ_pos (dictGet_default_one n hfreq)
          positivity
        · linarith [(positionBonus_bounds n target candidate).1]
      have hj : (0 : ℝ) ≤ (((lowerSetF targetNotes ∩ lowerSetF candidateNotes).card : ℝ) /
          (((lowerSetF targetNotes ∪ lowerSetF candidateNotes).card : ℝ))) := by positivity
      have hmin : (0 : ℝ) ≤ min ((∑ note ∈ lowerSetF targetNotes ∩ lowerSetF candidateNotes,
          (1 / Real.log (((dictGet noteFreqs note 1 : ℕ) : ℝ) + 1)) *
            positionBonus note target candidate) /
          (((lowerSetF targetNotes ∪ lowerSetF candidateNotes).card : ℝ))) 1 := by
        apply le_min _ zero_le_one
        apply div_nonneg hw
        positivity
      linarith

theorem calcAccordSimilarity_bounds (accordFreqs : List (String × ℕ))
    (targetAccords candidateAccords : List String)
    (hfreq : ∀ p ∈ accordFreqs, 1 ≤ p.2) :
    0 ≤ calcAccordSimilarity accordFreqs targetAccords candidateAccords ∧
      calcAccordSimilarity accordFreqs targetAccords candidateAccords ≤ 1 := by
  unfold calcAccordSimilarity
  split
  · exact ⟨le_refl 0, zero_le_one⟩
  · dsimp only
    split
    · exact ⟨le_refl 0, zero_le_one⟩
    · refine ⟨le_min ?_ zero_le_one, min_le_right _ 1⟩
      have hw : (0 : ℝ) ≤ ∑ accord ∈ lowerStripSetF targetAccords ∩ lowerStripSetF candidateAccords,
          1 / Real.log (((dictGet accordFreqs accord 1 : ℕ) : ℝ) + 1) := by
        apply Finset.sum_nonneg
        intro a _
        have := log_nat_succ_pos (dictGet_default_one a hfreq)
        positivity
      have hj : (0 : ℝ) ≤ (((lowerStripSetF targetAccords ∩ lowerStripSetF candidateAccords).card : ℝ) /
          (((lowerStripSetF targetAccords ∪ lowerStripSetF candidateAccords).card : ℝ))) := by
        positivity
      have hmin : (0 : ℝ) ≤ min ((∑ accord ∈ lowerStripSetF targetAccords ∩ lowerStripSetF candidateAccords,
          1 / Real.log (((dictGet accordFreqs accord 1 : ℕ) : ℝ) + 1)) /
          (((lowerStripSetF targetAccords ∪ lowerStripSetF candidateAccords).card : ℝ))) 1 := by
        apply le_min _ zero_le_one
        apply div_nonneg hw
        positivity
      linarith

theorem qualityWeight_nonneg (f : Fragrance) : 0 ≤ qualityWeight f := by
  unfold qualityWeight
  have : (0.6 : ℝ) ≤ max (f.avg_rating / 5) 0.6 := le_max_right _ _
  linarith

theorem collNoteCount_nonneg (tfs : List Fragrance) (note : String) :
    0 ≤ collNoteCount tfs note := by
  unfold collNoteCount
  apply List.sum_nonneg
  intro x hx
  rcases List.mem_map.mp hx with ⟨t, ht, rfl⟩
  exact mul_nonneg (qualityWeight_nonneg t) (by positivity)

theorem collAccordCount_nonneg (tfs : List Fragrance) (accord : String) :
    0 ≤ collAccordCount tfs accord := by
  unfold collAccordCount
  apply List.sum_nonneg
  intro x hx
  rcases List.mem_map.mp hx with ⟨t, ht, rfl⟩
  exact mul_nonneg (qualityWeight_nonneg t) (by positivity)

theorem collNoteTotal_nonneg (tfs : List Fragrance) : 0 ≤ collNoteTotal tfs := by
  unfold collNoteTotal
  exact Finset.sum_nonneg (fun n _ => collNoteCount_nonneg tfs n)

theorem collAccordTotal_nonneg (tfs : List Fragrance) : 0 ≤ collAccordTotal tfs := by
  unfold collAccordTotal
  exact Finset.sum_nonneg (fun a _ => collAccordCount_nonneg tfs a)

theorem calcNoteSimilarityMulti_bounds (noteFreqs : List (String × ℕ))
    (tfs : List Fragrance) (candidate : Fragrance)
    (hfreq : ∀ p ∈ noteFreqs, 1 ≤ p.2) :
    0 ≤ calcNoteSimilarityMulti noteFreqs tfs candidate ∧
      calcNoteSimilarityMulti noteFreqs tfs candidate ≤ 1 := by
  unfold calcNoteSimilarityMulti
  split
  · exact ⟨le_refl 0, zero_le_one⟩
  · dsimp only
    split
    · exact ⟨le_refl 0, zero_le_one⟩
    · refine ⟨le_min ?_ zero_le_one, min_le_right _ 1⟩
      have hw : (0 : ℝ) ≤ ∑ note ∈ lowerSetF candidate.notes,
          if note ∈ collNoteKeys tfs then
            (collNoteCount tfs note / collNoteTotal tfs) *
              (1 / Real.log (((dictGet noteFreqs note 1 : ℕ) : ℝ) + 1)) *
              collectionPositionBonus note candidate
          else 0 := by
        apply Finset.sum_nonneg
        intro n _
        split
        · apply mul_nonneg
          · apply mul_nonneg
            · exact div_nonneg (collNoteCount_nonneg tfs n) (collNoteTotal_nonneg tfs)
            · have := log_nat_succ_pos (dictGet_default_one n hfreq)
              positivity
          · linarith [(collectionPositionBonus_bounds n candidate).1]
        · exact le_refl 0
      have hcov : (0 : ℝ) ≤ (((lowerSetF candidate.notes ∩ collNoteKeys tfs).card : ℝ) /
          ((lowerSetF candidate.notes).card : ℝ)) := by positivity
      linarith

theorem calcAccordSimilarityMulti_bounds (accordFreqs : List (String × ℕ))
    (tfs : List Fragrance) (candidateAccords : List String)
    (hfreq : ∀ p ∈ accordFreqs, 1 ≤ p.2) :
    0 ≤ calcAccordSimilarityMulti accordFreqs tfs candidateAccords ∧
      calcAccordSimilarityMulti accordFreqs tfs candidateAccords ≤ 1 := by
  unfold calcAccordSimilarityMulti
  split
  · exact ⟨le_refl 0, zero_le_one⟩
  · dsimp only
    split
    · exact ⟨le_refl 0, zero_le_one⟩
    · refine ⟨le_min ?_ zero_le_one, min_le_right _ 1⟩
      have hw : (0 : ℝ) ≤ ∑ accord ∈ lowerStripSetF candidateAccords,
          if accord ∈ collAccordKeys tfs then
            (collAccordCount tfs accord / collAccordTotal tfs) *
              (1 / Real.log (((dictGet accordFreqs accord 1 : ℕ) : ℝ) + 1))
          else 0 := by
        apply Finset.sum_nonneg
        intro a _
        split
        · apply mul_nonneg
          · exact div_nonneg (collAccordCount_nonneg tfs a) (collAccordTotal_nonneg tfs)
          · have := log_nat_succ_pos (dictGet_default_one a hfreq)
            positivity
        · exact le_refl 0
      have hcov : (0 : ℝ) ≤ (((lowerStripSetF candidateAccords ∩ collAccordKeys tfs).card : ℝ) /
          ((lowerStripSetF candidateAccords).card : ℝ)) := by positivity
      linarith

theorem calcDiversityBonus_bounds (tfs : List Fragrance) (candidate : Fragrance) :
    0 ≤ calcDiversityBonus tfs candidate ∧ calcDiversityBonus tfs candidate ≤ 0.5 := by
  unfold calcDiversityBonus
  split
  · exact ⟨le_refl 0, by norm_num⟩
  · dsimp only
    constructor
    · apply le_min _ (by norm_num)
      apply Finset.sum_nonneg
      intro a _
      split
      · rename_i hc
        linarith [hc.2]
      · exact le_refl 0
    · exact min_le_right _ 0.5

theorem noteBasedResult_bounds {fs : List Fragrance}
    {prefNotes prefAccords : List NotePreference} {f : Fragrance}
    (hcat : validCatalog fs) (hf : f ∈ fs)
    (hn : validPrefList prefNotes) (ha : validPrefList prefAccords) :
    (0 ≤ (noteBasedResult fs prefNotes prefAccords f).score ∧
      (noteBasedResult fs prefNotes prefAccords f).score ≤ 1) ∧
    ∀ kv ∈ (noteBasedResult fs prefNotes prefAccords f).explanation,
      0 ≤ kv.2 ∧ kv.2 ≤ 1 := by
  have h1 := calcNotePrefMatch_bounds (noteFrequencies fs) f.notes prefNotes
    (noteFrequencies_pos fs) (fun p hp => by linarith [(hn p hp).1])
  have h2 := calcAccordPrefMatch_bounds (accordFrequencies fs) f.accords prefAccords
    (accordFrequencies_pos fs) (fun p hp => by linarith [(ha p hp).1])
  have h3 := calcQualityScore_bounds f.avg_rating f.num_ratings
    (hcat f hf).1 (hcat f hf).2.1 (hcat f hf).2.2
  have h4 := calcPopularityScore_bounds (maxRatings fs) f.num_ratings
    (hcat f hf).2.2 (maxRatings_ge hf)
  have hfinal :
      0 ≤ calcNotePrefMatch (noteFrequencies fs) f.notes prefNotes *
          NoteBasedRecommender.NOTE_PREFERENCE_WEIGHT +
        calcAccordPrefMatch (accordFrequencies fs) f.accords prefAccords *
          NoteBasedRecommender.ACCORD_PREFERENCE_WEIGHT +
        calcQualityScore f.avg_rating f.num_ratings *
          NoteBasedRecommender.QUALITY_WEIGHT +
        calcPopularityScore (maxRatings fs) f.num_ratings *
          NoteBasedRecommender.POPULARITY_WEIGHT ∧
      calcNotePrefMatch (noteFrequencies fs) f.notes prefNotes *
          NoteBasedRecommender.NOTE_PREFERENCE_WEIGHT +
        calcAccordPrefMatch (accordFrequencies fs) f.accords prefAccords *
          NoteBasedRecommender.ACCORD_PREFERENCE_WEIGHT +
        calcQualityScore f.avg_rating f.num_ratings *
          NoteBasedRecommender.QUALITY_WEIGHT +
        calcPopularityScore (maxRatings fs) f.num_ratings *
          NoteBasedRecommender.POPULARITY_WEIGHT ≤ 1 := by
    unfold NoteBasedRecommender.NOTE_PREFERENCE_WEIGHT
      NoteBasedRecommender.ACCORD_PREFERENCE_WEIGHT
      NoteBasedRecommender.QUALITY_WEIGHT NoteBasedRecommender.POPULARITY_WEIGHT
    constructor <;> nlinarith [h1.1, h1.2, h2.1, h2.2, h3.1, h3.2, h4.1, h4.2]
  unfold noteBasedResult
  dsimp only
  refine ⟨hfinal, ?_⟩
  intro kv hkv
  simp only [List.mem_cons, List.not_mem_nil, or_false] at hkv
  rcases hkv with rfl | rfl | rfl | rfl | rfl
  · exact ⟨h1.1, h1.2⟩
  · exact ⟨h2.1, h2.2⟩
  · exact ⟨h3.1, h3.2⟩
  · exact ⟨h4.1, h4.2⟩
  · exact hfinal

theorem similarityResultSingle_bounds {fs : List Fragrance}
    {target candidate : Fragrance}
    (hcat : validCatalog fs) (hc : candidate ∈ fs) :
    (0 ≤ (similarityResultSingle fs target candidate).score ∧
      (similarityResultSingle fs target candidate).score ≤ 1) ∧
    ∀ kv ∈ (similarityResultSingle fs target candidate).explanation,
      0 ≤ kv.2 ∧ kv.2 ≤ 1 := by
  have h1 := calcNoteSimilarity_bounds (noteFrequencies fs) target.notes
    candidate.notes target candidate (noteFrequencies_pos fs)
  have h2 := calcAccordSimilarity_bounds (accordFrequencies fs) target.accords
    candidate.accords (accordFrequencies_pos fs)
  have h3 := calcQualityScore_bounds candidate.avg_rating candidate.num_ratings
    (hcat candidate hc).1 (hcat candidate hc).2.1 (hcat candidate hc).2.2
  have h4 := calcPopularityScore_bounds (maxRatings fs) candidate.num_ratings
    (hcat candidate hc).2.2 (maxRatings_ge hc)
  have hfinal :
      0 ≤ calcNoteSimilarity (noteFrequencies fs) target.notes candidate.notes
          target candidate * SimilarityRecommender.NOTE_WEIGHT +
        calcAccordSimilarity (accordFrequencies fs) target.accords candidate.accords *
          SimilarityRecommender.ACCORD_WEIGHT +
        calcQualityScore candidate.avg_rating candidate.num_ratings *
          SimilarityRecommender.QUALITY_WEIGHT +
        calcPopularityScore (maxRatings fs) candidate.num_ratings *
          SimilarityRecommender.POPULARITY_WEIGHT ∧
      calcNoteSimilarity (noteFrequencies fs) target.notes candidate.notes
          target candidate * SimilarityRecommender.NOTE_WEIGHT +
        calcAccordSimilarity (accordFrequencies fs) target.accords candidate.accords *
          SimilarityRecommender.ACCORD_WEIGHT +
        calcQualityScore candidate.avg_rating candidate.num_ratings *
          SimilarityRecommender.QUALITY_WEIGHT +
        calcPopularityScore (maxRatings fs) candidate.num_ratings *
          SimilarityRecommender.POPULARITY_WEIGHT ≤ 1 := by
    unfold SimilarityRecommender.NOTE_WEIGHT SimilarityRecommender.ACCORD_WEIGHT
      SimilarityRecommender.QUALITY_WEIGHT SimilarityRecommender.POPULARITY_WEIGHT
    constructor <;> nlinarith [h1.1, h1.2, h2.1, h2.2, h3.1, h3.2, h4.1, h4.2]
  unfold similarityResultSingle
  dsimp only
  refine ⟨hfinal, ?_⟩
  intro kv hkv
  simp only [List.mem_cons, List.not_mem_nil, or_false] at hkv
  rcases hkv with rfl | rfl | rfl | rfl | rfl
  · exact ⟨h1.1, h1.2⟩
  · exact ⟨h2.1, h2.2⟩
  · exact ⟨h3.1, h3.2⟩
  · exact ⟨h4.1, h4.2⟩
  · exact hfinal

theorem similarityResultCollection_bounds {fs tfs : List Fragrance}
    {candidate : Fragrance}
    (hcat : validCatalog fs) (hc : candidate ∈ fs) :
    (0 ≤ (similarityResultCollection fs tfs candidate).score ∧
      (similarityResultCollection fs tfs candidate).score ≤ 1) ∧
    ∀ kv ∈ (similarityResultCollection fs tfs candidate).explanation,
      0 ≤ kv.2 ∧ kv.2 ≤ 1 := by
  have h1 := calcNoteSimilarityMulti_bounds (noteFrequencies fs) tfs candidate
    (noteFrequencies_pos fs)
  have h2 := calcAccordSimilarityMulti_bounds (accordFrequencies fs) tfs
    candidate.accords (accordFrequencies_pos fs)
  have h3 := calcQualityScore_bounds candidate.avg_rating candidate.num_ratings
    (hcat candidate hc).1 (hcat candidate hc).2.1 (hcat candidate hc).2.2
  have h4 := calcPopularityScore_bounds (maxRatings fs) candidate.num_ratings
    (hcat candidate hc).2.2 (maxRatings_ge hc)
  have h5 := calcDiversityBonus_bounds tfs candidate
  have h5b : calcDiversityBonus tfs candidate ≤ 1 := by linarith [h5.2]
  have hfinal :
      0 ≤ calcNoteSimilarityMulti (noteFrequencies fs) tfs candidate *
          SimilarityRecommender.NOTE_WEIGHT +
        calcAccordSimilarityMulti (accordFrequencies fs) tfs candidate.accords *
          SimilarityRecommender.ACCORD_WEIGHT +
        calcQualityScore candidate.avg_rating candidate.num_ratings *
          SimilarityRecommender.QUALITY_WEIGHT +
        calcPopularityScore (maxRatings fs) candidate.num_ratings *
          SimilarityRecommender.POPULARITY_WEIGHT +
        calcDiversityBonus tfs candidate * SimilarityRecommender.DIVERSITY_WEIGHT ∧
      calcNoteSimilarityMulti (noteFrequencies fs) tfs candidate *
          SimilarityRecommender.NOTE_WEIGHT +
        calcAccordSimilarityMulti (accordFrequencies fs) tfs candidate.accords *
          SimilarityRecommender.ACCORD_WEIGHT +
        calcQualityScore candidate.avg_rating candidate.num_ratings *
          SimilarityRecommender.QUALITY_WEIGHT +
        calcPopularityScore (maxRatings fs) candidate.num_ratings *
          SimilarityRecommender.POPULARITY_WEIGHT +
        calcDiversityBonus tfs candidate * SimilarityRecommender.DIVERSITY_WEIGHT ≤ 1 := by
    unfold SimilarityRecommender.NOTE_WEIGHT SimilarityRecommender.ACCORD_WEIGHT
      SimilarityRecommender.QUALITY_WEIGHT SimilarityRecommender.POPULARITY_WEIGHT
      SimilarityRecommender.DIVERSITY_WEIGHT
    constructor <;>
      nlinarith [h1.1, h1.2, h2.1, h2.2, h3.1, h3.2, h4.1, h4.2, h5.1, h5.2]
  unfold similarityResultCollection
  dsimp only
  refine ⟨hfinal, ?_⟩
  intro kv hkv
  simp only [List.mem_cons, List.not_mem_nil, or_false] at hkv
  rcases hkv with rfl | rfl | rfl | rfl | rfl | rfl
  · exact ⟨h1.1, h1.2⟩
  · exact ⟨h2.1, h2.2⟩
  · exact ⟨h3.1, h3.2⟩
  · exact ⟨h4.1, h4.2⟩
  · exact ⟨h5.1, h5b⟩
  · exact hfinal

theorem singleRecsSorted_mem {fs : List Fragrance} {target : Fragrance}
    {r : RecommendationResult} (h : r ∈ singleRecsSorted fs target) :
    ∃ candidate, candidate ∈ fs ∧ r = similarityResultSingle fs target candidate := by
  unfold singleRecsSorted at h
  have h2 := sortByScoreDesc_mem h
  rcases List.mem_map.mp h2 with ⟨p, hp, rfl⟩
  exact ⟨p.2, (fragDict_mem (List.mem_of_mem_filter hp)).1, rfl⟩

theorem collectionRecsSorted_mem {fs tfs : List Fragrance}
    {r : RecommendationResult} (h : r ∈ collectionRecsSorted fs tfs) :
    ∃ candidate, candidate ∈ fs ∧ r = similarityResultCollection fs tfs candidate := by
  unfold collectionRecsSorted at h
  have h2 := sortByScoreDesc_mem h
  rcases List.mem_map.mp h2 with ⟨p, hp, rfl⟩
  exact ⟨p.2, (fragDict_mem (List.mem_of_mem_filter hp)).1, rfl⟩

theorem simScoredSorted_mem {fs : List Fragrance} {targets : List String}
    {r : RecommendationResult} (h : r ∈ simScoredSorted fs targets) :
    (∃ t candidate, candidate ∈ fs ∧ r = similarityResultSingle fs t candidate) ∨
    (∃ tfs candidate, candidate ∈ fs ∧ r = similarityResultCollection fs tfs candidate) := by
  unfold simScoredSorted at h
  split at h
  · rcases singleRecsSorted_mem h with ⟨c, hc, rfl⟩
    exact Or.inl ⟨_, c, hc, rfl⟩
  · rcases collectionRecsSorted_mem h with ⟨c, hc, rfl⟩
    exact Or.inr ⟨_, c, hc, rfl⟩

/-- C1: for every catalog satisfying the data-model preconditions and every
valid request, every returned score and every value in the explanation
mapping (including `final_score`) lies in `[0, 1]`, for both the preference
recommender and the similarity recommender (both modes). -/
theorem C1_scores_and_explanations_bounded (fs : List Fragrance)
    (hcat : validCatalog fs) (prefNotes prefAccords : List NotePreference)
    (hn : validPrefList prefNotes) (ha : validPrefList prefAccords)
    (targets : List String) (limit : ℕ) :
    (∀ res, noteGetRecommendations fs prefNotes prefAccords limit = .ok res →
      ∀ r ∈ res, (0 ≤ r.score ∧ r.score ≤ 1) ∧
        ∀ kv ∈ r.explanation, 0 ≤ kv.2 ∧ kv.2 ≤ 1) ∧
    (∀ res, simGetRecommendations fs targets limit = .ok res →
      ∀ r ∈ res, (0 ≤ r.score ∧ r.score ≤ 1) ∧
        ∀ kv ∈ r.explanation, 0 ≤ kv.2 ∧ kv.2 ≤ 1) := by
  constructor
  · intro res hres r hr
    unfold noteGetRecommendations at hres
    split at hres
    · exact absurd hres (by simp)
    · simp only [Except.ok.injEq] at hres
      subst hres
      have h1 : r ∈ noteScoredSorted fs prefNotes prefAccords :=
        List.mem_of_mem_take hr
      have h2 := sortByScoreDesc_mem h1
      rcases List.mem_map.mp h2 with ⟨f, hf, rfl⟩
      exact noteBasedResult_bounds hcat (fragValues_mem hf) hn ha
  · intro res hres r hr
    unfold simGetRecommendations at hres
    split at hres
    · exact absurd hres (by simp)
    · simp only [Except.ok.injEq] at hres
      subst hres
      have h1 : r ∈ simScoredSorted fs targets := List.mem_of_mem_take hr
      rcases simScoredSorted_mem h1 with ⟨t, c, hc, rfl⟩ | ⟨tfs, c, hc, rfl⟩
      · exact similarityResultSingle_bounds hcat hc
      · exact similarityResultCollection_bounds hcat hc

/-- Sample catalog record used to instantiate hypothesis-bearing theorems. -/
def sampleFragA : Fragrance :=
  { id := "a", name := "Alpha", brand := "HouseA",
    notes := ["Vanilla", "Cedar"], top_notes := ["Vanilla"],
    middle_notes := ["Cedar"], base_notes := [], accords := ["woody"],
    avg_rating := 4, num_ratings := 10 }

/-- Second sample catalog record. -/
def sampleFragB : Fragrance :=
  { id := "b", name := "Beta", brand := "HouseB",
    notes := ["Vanilla", "Patchouli"], top_notes := ["Vanilla"],
    middle_notes := [], base_notes := ["Patchouli"], accords := ["earthy"],
    avg_rating := 3, num_ratings := 5 }

/-- Witness for C1: the hypotheses are satisfiable at a concrete catalog and
request. -/
theorem C1_witness :
    (∀ res, noteGetRecommendations [sampleFragA, sampleFragB]
        [⟨"Vanilla", 9⟩] [] 3 = .ok res →
      ∀ r ∈ res, (0 ≤ r.score ∧ r.score ≤ 1) ∧
        ∀ kv ∈ r.explanation, 0 ≤ kv.2 ∧ kv.2 ≤ 1) ∧
    (∀ res, simGetRecommendations [sampleFragA, sampleFragB] ["a"] 3 = .ok res →
      ∀ r ∈ res, (0 ≤ r.score ∧ r.score ≤ 1) ∧
        ∀ kv ∈ r.explanation, 0 ≤ kv.2 ∧ kv.2 ≤ 1) :=
  C1_scores_and_explanations_bounded [sampleFragA, sampleFragB]
    (by
      intro f hf
      simp only [List.mem_cons, List.not_mem_nil, or_false] at hf
      rcases hf with rfl | rfl <;>
        refine ⟨by norm_num [sampleFragA, sampleFragB], by norm_num [sampleFragA, sampleFragB],
          by norm_num [sampleFragA, sampleFragB]⟩)
    [⟨"Vanilla", 9⟩] []
    (by intro p hp; simp only [List.mem_cons, List.not_mem_nil, or_false] at hp;
        subst hp; exact ⟨by norm_num, by norm_num⟩)
    (by intro p hp; simp at hp)
    ["a"] 3

/-- C2, counterexample: the claim asserts all three weight sets sum to 1.0
within 1e-9, but the single-target similarity weights
{0.40, 0.25, 0.25, 0.08} sum to 0.98, which is not within 1e-9 of 1. -/
theorem C2_counterexample :
    ¬ ((|SimilarityRecommender.NOTE_WEIGHT + SimilarityRecommender.ACCORD_WEIGHT +
          SimilarityRecommender.QUALITY_WEIGHT +
          SimilarityRecommender.POPULARITY_WEIGHT - 1| ≤ 1e-9) ∧
       (|NoteBasedRecommender.NOTE_PREFERENCE_WEIGHT +
          NoteBasedRecommender.ACCORD_PREFERENCE_WEIGHT +
          NoteBasedRecommender.QUALITY_WEIGHT +
          NoteBasedRecommender.POPULARITY_WEIGHT - 1| ≤ 1e-9) ∧
       (SimilarityRecommender.NOTE_WEIGHT + SimilarityRecommender.ACCORD_WEIGHT +
          SimilarityRecommender.QUALITY_WEIGHT +
          SimilarityRecommender.POPULARITY_WEIGHT +
          SimilarityRecommender.DIVERSITY_WEIGHT = 1)) := by
  intro h
  have h1 := h.1
  have he : SimilarityRecommender.NOTE_WEIGHT + SimilarityRecommender.ACCORD_WEIGHT +
      SimilarityRecommender.QUALITY_WEIGHT +
      SimilarityRecommender.POPULARITY_WEIGHT - 1 = -(0.02 : ℝ) := by
    norm_num [SimilarityRecommender.NOTE_WEIGHT, SimilarityRecommender.ACCORD_WEIGHT,
      SimilarityRecommender.QUALITY_WEIGHT, SimilarityRecommender.POPULARITY_WEIGHT]
  rw [he, abs_neg, abs_of_pos (by norm_num : (0 : ℝ) < 0.02)] at h1
  norm_num at h1

/-- C2, amended: the four single-target similarity weights sum to 0.98 (not
1.0), the four preference weights sum to exactly 1.0, and the five
collection-mode weights sum to exactly 1.0. -/
theorem C2_weight_sums :
    SimilarityRecommender.NOTE_WEIGHT + SimilarityRecommender.ACCORD_WEIGHT +
      SimilarityRecommender.QUALITY_WEIGHT +
      SimilarityRecommender.POPULARITY_WEIGHT = 0.98 ∧
    NoteBasedRecommender.NOTE_PREFERENCE_WEIGHT +
      NoteBasedRecommender.ACCORD_PREFERENCE_WEIGHT +
      NoteBasedRecommender.QUALITY_WEIGHT +
      NoteBasedRecommender.POPULARITY_WEIGHT = 1 ∧
    SimilarityRecommender.NOTE_WEIGHT + SimilarityRecommender.ACCORD_WEIGHT +
      SimilarityRecommender.QUALITY_WEIGHT +
      SimilarityRecommender.POPULARITY_WEIGHT +
      SimilarityRecommender.DIVERSITY_WEIGHT = 1 := by
  refine ⟨?_, ?_, ?_⟩ <;>
    norm_num [SimilarityRecommender.NOTE_WEIGHT, SimilarityRecommender.ACCORD_WEIGHT,
      SimilarityRecommender.QUALITY_WEIGHT, SimilarityRecommender.POPULARITY_WEIGHT,
      SimilarityRecommender.DIVERSITY_WEIGHT,
      NoteBasedRecommender.NOTE_PREFERENCE_WEIGHT,
      NoteBasedRecommender.ACCORD_PREFERENCE_WEIGHT,
      NoteBasedRecommender.QUALITY_WEIGHT, NoteBasedRecommender.POPULARITY_WEIGHT]

/-- The note rarity cap: for global frequency at least 2 the multiplier is at
most 1.5 (`ln(freq+1) ≥ ln 3 ≥ 1`). -/
theorem noteRarityMultiplier_cap {freq : ℕ} (h : 2 ≤ freq) :
    noteRarityMultiplier freq ≤ 1.5 := by
  unfold noteRarityMultiplier
  have h3 : (3 : ℝ) ≤ (freq : ℝ) + 1 := by
    have : (2 : ℝ) ≤ (freq : ℝ) := by exact_mod_cast h
    linarith
  have hlog3 : (1 : ℝ) ≤ Real.log 3 := by
    rw [Real.le_log_iff_exp_le (by norm_num)]
    calc Real.exp 1 ≤ 2.7182818286 := Real.exp_one_lt_d9.le
      _ ≤ 3 := by norm_num
  have hmono : Real.log 3 ≤ Real.log ((freq : ℝ) + 1) :=
    Real.log_le_log (by norm_num) h3
  have hpos : 0 < Real.log ((freq : ℝ) + 1) := by linarith
  have hdiv : 1 / Real.log ((freq : ℝ) + 1) ≤ 1 := by
    rw [div_le_one hpos]
    linarith
  linarith

/-- C8, counterexample: at global frequency 1 the rarity multiplier is
`1 + (1/ln 2) * 0.5 ≈ 1.72 > 1.5`, so the claimed cap of 1.5 for every
frequency `f ≥ 1` fails. -/
theorem C8_counterexample : ¬ (noteRarityMultiplier 1 ≤ 1.5) := by
  unfold noteRarityMultiplier
  intro h
  have hc : ((1 : ℕ) : ℝ) + 1 = 2 := by norm_num
  rw [hc] at h
  have hpos : 0 < Real.log 2 := Real.log_pos one_lt_two
  have hlt : Real.log 2 < 1 := lt_trans Real.log_two_lt_d9 (by norm_num)
  have hge : (1 : ℝ) ≤ Real.log 2 := by
    have hd : (1 : ℝ) / Real.log 2 ≤ 1 := by linarith
    rw [div_le_one hpos] at hd
    exact hd
  linarith

/-- C8, amended: for every matched note with global frequency `f`, the rarity
multiplier equals `1 + (1/ln(f+1)) * 0.5`, and the 1.5 cap holds for every
`f ≥ 2` (at `f = 1` the multiplier is about 1.72, exceeding 1.5). -/
theorem C8_rarity_multiplier (freq : ℕ) :
    noteRarityMultiplier freq = 1 + (1 / Real.log ((freq : ℝ) + 1)) * 0.5 ∧
    (2 ≤ freq → noteRarityMultiplier freq ≤ 1.5) :=
  ⟨rfl, fun h => noteRarityMultiplier_cap h⟩

/-- Witness for C8's amended statement at frequency 2. -/
theorem C8_witness :
    noteRarityMultiplier 2 = 1 + (1 / Real.log (((2 : ℕ) : ℝ) + 1)) * 0.5 ∧
    (2 ≤ 2 ∧ noteRarityMultiplier 2 ≤ 1.5) :=
  ⟨(C8_rarity_multiplier 2).1, le_refl 2, (C8_rarity_multiplier 2).2 (le_refl 2)⟩

theorem foldl_max_zero {l : List Fragrance} (h : ∀ f ∈ l, f.num_ratings = 0) :
    l.foldl (fun m g => max m g.num_ratings) 0 = 0 := by
  induction l with
  | nil => rfl
  | cons a t ih =>
    simp only [List.foldl_cons]
    rw [h a (by simp), max_self]
    exact ih (fun f hf => h f (by simp [hf]))

/-- C10: a non-empty catalog in which every fragrance has zero ratings yields
`max_ratings = 0` (not the empty-catalog default 1), the popularity
normalizer `ln(max_ratings+1)` is zero, and the popularity score is still
total, returning 0.0 for every catalog fragrance because the
`num_ratings == 0` guard returns before the division. -/
theorem C10_zero_ratings_popularity (fs : List Fragrance) (hne : fs ≠ [])
    (hz : ∀ f ∈ fs, f.num_ratings = 0) :
    maxRatings fs = 0 ∧ Real.log ((maxRatings fs : ℝ) + 1) = 0 ∧
      ∀ f ∈ fs, calcPopularityScore (maxRatings fs) f.num_ratings = 0 := by
  obtain ⟨g, rest, rfl⟩ := List.exists_cons_of_ne_nil hne
  have hmax : maxRatings (g :: rest) = 0 := by
    show rest.foldl (fun m h => max m h.num_ratings) g.num_ratings = 0
    rw [hz g (by simp)]
    exact foldl_max_zero (fun f hf => hz f (by simp [hf]))
  refine ⟨hmax, ?_, ?_⟩
  · rw [hmax]
    norm_num
  · intro f hf
    unfold calcPopularityScore
    rw [hz f hf]
    simp

/-- Zero-rating sample record used by the C10 witness. -/
def sampleFragZero : Fragrance :=
  { id := "z", name := "Zero", brand := "HouseZ",
    notes := ["musk"], top_notes := [], middle_notes := [],
    base_notes := ["musk"], accords := ["musky"],
    avg_rating := 0, num_ratings := 0 }

/-- Witness for C10 at a concrete one-element catalog with zero ratings. -/
theorem C10_witness :
    maxRatings [sampleFragZero] = 0 ∧
    Real.log ((maxRatings [sampleFragZero] : ℝ) + 1) = 0 ∧
    ∀ f ∈ [sampleFragZero],
      calcPopularityScore (maxRatings [sampleFragZero]) f.num_ratings = 0 :=
  C10_zero_ratings_popularity [sampleFragZero] (by simp)
    (by intro f hf
        simp only [List.mem_cons, List.not_mem_nil, or_false] at hf
        rw [hf]
        rfl)

theorem similarityResultSingle_fragrance (fs : List Fragrance)
    (t c : Fragrance) : (similarityResultSingle fs t c).fragrance = c := rfl

theorem similarityResultCollection_fragrance (fs tfs : List Fragrance)
    (c : Fragrance) : (similarityResultCollection fs tfs c).fragrance = c := rfl

theorem singleRecsSorted_id_ne {fs : List Fragrance} {target : Fragrance}
    {r : RecommendationResult} (h : r ∈ singleRecsSorted fs target) :
    r.fragrance.id ≠ target.id := by
  unfold singleRecsSorted at h
  have h2 := sortByScoreDesc_mem h
  rcases List.mem_map.mp h2 with ⟨p, hp, rfl⟩
  rcases List.mem_filter.mp hp with ⟨hpd, hpc⟩
  have hkey : p.1 ≠ target.id := by
    simpa using hpc
  rw [similarityResultSingle_fragrance, (fragDict_mem hpd).2]
  exact hkey

theorem collectionRecsSorted_id_not_target {fs tfs : List Fragrance}
    {r : RecommendationResult} (h : r ∈ collectionRecsSorted fs tfs) :
    r.fragrance.id ∉ tfs.map (fun t => t.id) := by
  unfold collectionRecsSorted at h
  have h2 := sortByScoreDesc_mem h
  rcases List.mem_map.mp h2 with ⟨p, hp, rfl⟩
  rcases List.mem_filter.mp hp with ⟨hpd, hpc⟩
  have hkey : p.1 ∉ tfs.map (fun t => t.id) := by
    intro hmem
    simp only [Bool.not_eq_true'] at hpc
    rw [List.contains_eq_any_beq] at hpc
    have : (List.map (fun t => t.id) tfs).any (fun x => p.1 == x) = true :=
      List.any_eq_true.mpr ⟨p.1, hmem, by simp⟩
    rw [this] at hpc
    simp at hpc
  rw [similarityResultCollection_fragrance, (fragDict_mem hpd).2]
  exact hkey

theorem targets_resolve {fs : List Fragrance} {targets : List String}
    (hall : ∀ id ∈ targets, (fragLookup fs id).isSome) :
    ∀ id ∈ targets, ∃ f, f ∈ targets.filterMap (fragLookup fs) ∧ f.id = id := by
  intro id hid
  rcases Option.isSome_iff_exists.mp (hall id hid) with ⟨f, hf⟩
  exact ⟨f, List.mem_filterMap.mpr ⟨id, hid, hf⟩, (fragLookup_some hf).2⟩

/-- C3: when every supplied target id is present in the catalog, no returned
result's fragrance id equals any supplied target id, in both single-target
and collection mode. -/
theorem C3_self_exclusion (fs : List Fragrance) (targets : List String)
    (limit : ℕ) (hall : ∀ id ∈ targets, (fragLookup fs id).isSome) :
    ∀ res, simGetRecommendations fs targets limit = .ok res →
      ∀ r ∈ res, r.fragrance.id ∉ targets := by
  intro res hres r hr hid
  unfold simGetRecommendations at hres
  split at hres
  · exact absurd hres (by simp)
  · simp only [Except.ok.injEq] at hres
    subst hres
    have hmem : r ∈ simScoredSorted fs targets := List.mem_of_mem_take hr
    rcases targets_resolve hall r.fragrance.id hid with ⟨f, hf, hfid⟩
    unfold simScoredSorted at hmem
    split at hmem
    · rename_i t heq
      rw [heq] at hf
      simp only [List.mem_singleton] at hf
      subst hf
      exact singleRecsSorted_id_ne hmem (hfid.symm)
    · have hnot := collectionRecsSorted_id_not_target hmem
      exact hnot (List.mem_map.mpr ⟨f, hf, hfid⟩)

/-- Witness for C3: a concrete catalog and an in-catalog target. -/
theorem C3_witness :
    (∀ id ∈ ["a"], (fragLookup [sampleFragA, sampleFragB] id).isSome) ∧
    (∀ res, simGetRecommendations [sampleFragA, sampleFragB] ["a"] 5 = .ok res →
      ∀ r ∈ res, r.fragrance.id ∉ ["a"]) := by
  have hall : ∀ id ∈ ["a"], (fragLookup [sampleFragA, sampleFragB] id).isSome := by
    intro id hid
    simp only [List.mem_cons, List.not_mem_nil, or_false] at hid
    subst hid
    rfl
  exact ⟨hall, C3_self_exclusion [sampleFragA, sampleFragB] ["a"] 5 hall⟩

/-- C4: the preference recommender raises exactly when both preference lists
are empty; the similarity recommender raises exactly when some target id is
missing from the catalog, and the raised error names the first missing id;
under the data-model preconditions the remaining arithmetic the scoring relies
on is well defined (the popularity denominator is positive for every stored
fragrance with ratings, and the Wilson radicand is non-negative), so no other
input raises. -/
theorem C4_error_conditions (fs : List Fragrance)
    (prefNotes prefAccords : List NotePreference) (targets : List String)
    (limit : ℕ) :
    ((∃ e, noteGetRecommendations fs prefNotes prefAccords limit = .error e) ↔
      (prefNotes = [] ∧ prefAccords = [])) ∧
    ((∃ e, simGetRecommendations fs targets limit = .error e) ↔
      (∃ id ∈ targets, fragLookup fs id = none)) ∧
    (∀ e, simGetRecommendations fs targets limit = .error e →
      ∃ id, targets.find? (fun id2 => (fragLookup fs id2).isNone) = some id ∧
        fragLookup fs id = none ∧ e = "Fragrance " ++ id ++ " not found") ∧
    (validCatalog fs → ∀ f ∈ fragValues fs, f.num_ratings ≠ 0 →
      0 < Real.log ((maxRatings fs : ℝ) + 1)) ∧
    (validCatalog fs → ∀ f ∈ fragValues fs, f.num_ratings ≠ 0 →
      0 ≤ wilsonRadicand ((f.num_ratings : ℝ) * max ((f.avg_rating - 2.5) / 2.5) 0)
        f.num_ratings) := by
  refine ⟨?_, ?_, ?_, ?_, ?_⟩
  · unfold noteGetRecommendations
    split
    · rename_i hcond
      simp only [Bool.and_eq_true, List.isEmpty_iff] at hcond
      exact ⟨fun _ => hcond, fun _ => ⟨_, rfl⟩⟩
    · rename_i hcond
      constructor
      · rintro ⟨e, he⟩
        exact absurd he (by simp)
      · intro hboth
        exact absurd (by simp [hboth.1, hboth.2] : (prefNotes.isEmpty &&
          prefAccords.isEmpty) = true) hcond
  · unfold simGetRecommendations
    cases hfind : targets.find? (fun id => (fragLookup fs id).isNone) with
    | none =>
      constructor
      · rintro ⟨e, he⟩
        exact absurd he (by simp)
      · rintro ⟨id, hid, hnone⟩
        have := List.find?_eq_none.mp hfind id hid
        simp only [Option.isNone_iff_eq_none] at this
        exact absurd hnone this
    | some m =>
      constructor
      · intro _
        exact ⟨m, List.mem_of_find?_eq_some hfind, by
          have := List.find?_some hfind
          simpa [Option.isNone_iff_eq_none] using this⟩
      · intro _
        exact ⟨_, rfl⟩
  · intro e he
    unfold simGetRecommendations at he
    cases hfind : targets.find? (fun id => (fragLookup fs id).isNone) with
    | none => rw [hfind] at he; exact absurd he (by simp)
    | some m =>
      rw [hfind] at he
      simp only [Except.error.injEq] at he
      refine ⟨m, rfl, ?_, he.symm⟩
      have := List.find?_some hfind
      simpa [Option.isNone_iff_eq_none] using this
  · intro hcat f hf hne
    have hfs := fragValues_mem hf
    have h1 : 1 ≤ f.num_ratings := by
      have := (hcat f hfs).2.2
      omega
    have hm : 1 ≤ maxRatings fs := le_trans h1 (maxRatings_ge hfs)
    apply Real.log_pos
    have : (1 : ℝ) ≤ (maxRatings fs : ℝ) := by exact_mod_cast hm
    linarith
  · intro hcat f hf hne
    have hfs := fragValues_mem hf
    have h1 : 1 ≤ f.num_ratings := by
      have := (hcat f hfs).2.2
      omega
    have hn : (1 : ℝ) ≤ (f.num_ratings : ℝ) := by exact_mod_cast h1
    have hn0 : (f.num_ratings : ℝ) ≠ 0 := by linarith
    unfold wilsonRadicand
    have hp : (f.num_ratings : ℝ) * max ((f.avg_rating - 2.5) / 2.5) 0 /
        (f.num_ratings : ℝ) = max ((f.avg_rating - 2.5) / 2.5) 0 := by
      rw [mul_comm, mul_div_assoc, div_self hn0, mul_one]
    rw [hp]
    have hr0 : (0 : ℝ) ≤ max ((f.avg_rating - 2.5) / 2.5) 0 := le_max_right _ 0
    have hr1 : max ((f.avg_rating - 2.5) / 2.5) 0 ≤ 1 := by
      apply max_le _ zero_le_one
      rw [div_le_one (by norm_num : (0 : ℝ) < 2.5)]
      linarith [(hcat f hfs).2.1]
    apply div_nonneg _ (by linarith)
    have hq : 0 ≤ max ((f.avg_rating - 2.5) / 2.5) 0 *
        (1 - max ((f.avg_rating - 2.5) / 2.5) 0) := by nlinarith
    have hz : (0 : ℝ) ≤ 1.96 * 1.96 / (4 * (f.num_ratings : ℝ)) := by positivity
    linarith

/-- Witness for C4: concrete error and non-error facts obtained through the
theorem. -/
theorem C4_witness :
    (∃ e, noteGetRecommendations [sampleFragA] [] [] 3 = .error e) ∧
    (∃ e, simGetRecommendations [sampleFragA] ["zzz"] 3 = .error e) ∧
    0 < Real.log ((maxRatings [sampleFragA] : ℝ) + 1) := by
  have hcat : validCatalog [sampleFragA] := by
    intro f hf
    simp only [List.mem_cons, List.not_mem_nil, or_false] at hf
    subst hf
    refine ⟨by norm_num [sampleFragA], by norm_num [sampleFragA],
      by norm_num [sampleFragA]⟩
  have h := C4_error_conditions [sampleFragA] [] [] ["zzz"] 3
  refine ⟨h.1.mpr ⟨rfl, rfl⟩, h.2.1.mpr ⟨"zzz", by simp, rfl⟩, ?_⟩
  refine h.2.2.2.1 hcat sampleFragA ?_ (by norm_num [sampleFragA])
  show sampleFragA ∈ fragValues [sampleFragA]
  rw [show fragValues [sampleFragA] = [sampleFragA] from rfl]
  simp

theorem noteScoredSorted_pairwise (fs : List Fragrance)
    (prefNotes prefAccords : List NotePreference) :
    (noteScoredSorted fs prefNotes prefAccords).Pairwise
      (fun a b => b.score ≤ a.score) :=
  sortByScoreDesc_pairwise _

theorem simScoredSorted_pairwise (fs : List Fragrance) (targets : List String) :
    (simScoredSorted fs targets).Pairwise (fun a b => b.score ≤ a.score) := by
  unfold simScoredSorted
  split
  · exact sortByScoreDesc_pairwise _
  · exact sortByScoreDesc_pairwise _

/-- C5: every successful recommendation call returns exactly the first
`limit` elements of the complete scored candidate list sorted by score
(a list that does not mention `limit`), hence scores are non-increasing
across consecutive returned entries and the limit only controls how many of
the same ranked candidates are returned (results for a smaller limit are a
prefix of results for a larger one). -/
theorem C5_truncate_after_sort (fs : List Fragrance)
    (prefNotes prefAccords : List NotePreference) (targets : List String)
    (limit : ℕ) :
    (∀ res, noteGetRecommendations fs prefNotes prefAccords limit = .ok res →
      res = (noteScoredSorted fs prefNotes prefAccords).take limit ∧
      res.Pairwise (fun a b => b.score ≤ a.score)) ∧
    (∀ res, simGetRecommendations fs targets limit = .ok res →
      res = (simScoredSorted fs targets).take limit ∧
      res.Pairwise (fun a b => b.score ≤ a.score)) ∧
    (∀ l1 l2 : ℕ, l1 ≤ l2 → ∀ res1 res2,
      noteGetRecommendations fs prefNotes prefAccords l1 = .ok res1 →
      noteGetRecommendations fs prefNotes prefAccords l2 = .ok res2 →
      res1 = res2.take l1) ∧
    (∀ l1 l2 : ℕ, l1 ≤ l2 → ∀ res1 res2,
      simGetRecommendations fs targets l1 = .ok res1 →
      simGetRecommendations fs targets l2 = .ok res2 →
      res1 = res2.take l1) := by
  have hnote : ∀ lim res, noteGetRecommendations fs prefNotes prefAccords lim = .ok res →
      res = (noteScoredSorted fs prefNotes prefAccords).take lim := by
    intro lim res hres
    unfold noteGetRecommendations at hres
    split at hres
    · exact absurd hres (by simp)
    · simp only [Except.ok.injEq] at hres
      exact hres.symm
  have hsim : ∀ lim res, simGetRecommendations fs targets lim = .ok res →
      res = (simScoredSorted fs targets).take lim := by
    intro lim res hres
    unfold simGetRecommendations at hres
    split at hres
    · exact absurd hres (by simp)
    · simp only [Except.ok.injEq] at hres
      exact hres.symm
  refine ⟨?_, ?_, ?_, ?_⟩
  · intro res hres
    have h := hnote limit res hres
    subst h
    exact ⟨rfl, (noteScoredSorted_pairwise fs prefNotes prefAccords).sublist
      (List.take_sublist _ _)⟩
  · intro res hres
    have h := hsim limit res hres
    subst h
    exact ⟨rfl, (simScoredSorted_pairwise fs targets).sublist
      (List.take_sublist _ _)⟩
  · intro l1 l2 h12 res1 res2 h1 h2
    rw [hnote l1 res1 h1, hnote l2 res2 h2, List.take_take]
    congr 1
    omega
  · intro l1 l2 h12 res1 res2 h1 h2
    rw [hsim l1 res1 h1, hsim l2 res2 h2, List.take_take]
    congr 1
    omega

/-- Witness for C5: concrete calls returning sorted prefixes. -/
theorem C5_witness :
    noteGetRecommendations [sampleFragA, sampleFragB] [⟨"Vanilla", 9⟩] [] 1 =
      .ok ((noteScoredSorted [sampleFragA, sampleFragB] [⟨"Vanilla", 9⟩] []).take 1) ∧
    ((noteScoredSorted [sampleFragA, sampleFragB] [⟨"Vanilla", 9⟩] []).take 1).Pairwise
      (fun a b => b.score ≤ a.score) := by
  have hok : noteGetRecommendations [sampleFragA, sampleFragB] [⟨"Vanilla", 9⟩] [] 1 =
      .ok ((noteScoredSorted [sampleFragA, sampleFragB] [⟨"Vanilla", 9⟩] []).take 1) := rfl
  exact ⟨hok, ((C5_truncate_after_sort [sampleFragA, sampleFragB]
    [⟨"Vanilla", 9⟩] [] [] 1).1 _ hok).2⟩

theorem dictGet_cntIncr (m : List (String × ℕ)) (k key : String) :
    dictGet (cntIncr m k) key 0 = dictGet m key 0 + (if key = k then 1 else 0) := by
  unfold cntIncr dictGet
  split
  · rename_i hany
    rw [List.find?_map]
    have hpred : ((fun p : String × ℕ => p.1 == key) ∘
        (fun p : String × ℕ => if p.1 == k then (p.1, p.2 + 1) else p)) =
        (fun p : String × ℕ => p.1 == key) := by
      funext q
      by_cases hq : q.1 = k
      · simp [hq]
      · simp [hq]
    rw [hpred]
    cases hfind : m.find? (fun p => p.1 == key) with
    | none =>
      by_cases hkk : key = k
      · exfalso
        rcases List.any_eq_true.mp hany with ⟨p, hp, hpk⟩
        rw [List.find?_eq_none] at hfind
        apply hfind p hp
        simp only [beq_iff_eq] at hpk ⊢
        rw [hpk, hkk]
      · simp [hkk]
    | some q =>
      have hqkey : q.1 = key := by simpa using List.find?_some hfind
      by_cases hkk : key = k
      · have hq : q.1 = k := hqkey.trans hkk
        simp [hq, hkk]
      · have hq : ¬ (q.1 = k) := by rw [hqkey]; exact hkk
        simp [hq, hkk]
  · rename_i hany
    rw [List.find?_append]
    cases hfind : m.find? (fun p => p.1 == key) with
    | none =>
      by_cases hkk : key = k
      · simp [List.find?, Option.or, hkk]
      · have hne : ¬ ((k == key) = true) := by
          simp only [beq_iff_eq]
          exact fun h => hkk h.symm
        simp [List.find?, Option.or, hne, hkk]
    | some q =>
      have hqkey : q.1 = key := by simpa using List.find?_some hfind
      by_cases hkk : key = k
      · exfalso
        apply hany
        apply List.any_eq_true.mpr
        refine ⟨q, List.mem_of_find?_eq_some hfind, ?_⟩
        simp only [beq_iff_eq]
        rw [hqkey, hkk]
      · simp [Option.or, hkk]

theorem dictGet_noteFold (notes : List String) (m : List (String × ℕ))
    (key : String) :
    dictGet (notes.foldl (fun m2 n => cntIncr m2 (pyLower n)) m) key 0 =
      dictGet m key 0 + (notes.map pyLower).count key := by
  induction notes generalizing m with
  | nil => simp
  | cons n t ih =>
    simp only [List.foldl_cons, List.map_cons]
    rw [ih, dictGet_cntIncr, List.count_cons]
    by_cases h : key = pyLower n
    · simp [h]
      omega
    · have h2 : ¬ (pyLower n == key) := by simp; exact fun hc => h hc.symm
      simp [h, h2]

theorem dictGet_noteFrequencies (fs : List Fragrance) (key : String) :
    dictGet (noteFrequencies fs) key 0 =
      ((fragValues fs).map (fun f => (f.notes.map pyLower).count key)).sum := by
  unfold noteFrequencies
  suffices h : ∀ (l : List Fragrance) (m : List (String × ℕ)),
      dictGet (l.foldl (fun m2 f => f.notes.foldl
        (fun m3 n => cntIncr m3 (pyLower n)) m2) m) key 0 =
      dictGet m key 0 + (l.map (fun f => (f.notes.map pyLower).count key)).sum by
    rw [h (fragValues fs) []]
    simp [dictGet]
  intro l
  induction l with
  | nil => simp
  | cons f t ih =>
    intro m
    simp only [List.foldl_cons, List.map_cons, List.sum_cons]
    rw [ih, dictGet_noteFold]
    omega

theorem dictGet_accordFold (accords : List String) (m : List (String × ℕ))
    (key : String) :
    dictGet (accords.foldl (fun m2 a => cntIncr m2 (pyLower a)) m) key 0 =
      dictGet m key 0 + (accords.map pyLower).count key := by
  induction accords generalizing m with
  | nil => simp
  | cons a t ih =>
    simp only [List.foldl_cons, List.map_cons]
    rw [ih, dictGet_cntIncr, List.count_cons]
    by_cases h : key = pyLower a
    · simp [h]
      omega
    · have h2 : ¬ (pyLower a == key) := by simp; exact fun hc => h hc.symm
      simp [h, h2]

theorem dictGet_accordFrequencies (fs : List Fragrance) (key : String) :
    dictGet (accordFrequencies fs) key 0 =
      ((fragValues fs).map (fun f => (f.accords.map pyLower).count key)).sum := by
  unfold accordFrequencies
  suffices h : ∀ (l : List Fragrance) (m : List (String × ℕ)),
      dictGet (l.foldl (fun m2 f => f.accords.foldl
        (fun m3 a => cntIncr m3 (pyLower a)) m2) m) key 0 =
      dictGet m key 0 + (l.map (fun f => (f.accords.map pyLower).count key)).sum by
    rw [h (fragValues fs) []]
    simp [dictGet]
  intro l
  induction l with
  | nil => simp
  | cons f t ih =>
    intro m
    simp only [List.foldl_cons, List.map_cons, List.sum_cons]
    rw [ih, dictGet_accordFold]
    omega

/-- The spec's description of `note_frequency`, stated as written: the count
of stored fragrances whose (lowercased) combined note list contains the
note. -/
def specNoteFragranceCount (fs : List Fragrance) (note : String) : ℕ :=
  ((fragValues fs).filter (fun f => (f.notes.map pyLower).contains note)).length

/-- A fragrance listing the same note in two pyramid positions, so the note
occurs twice in its combined notes sequence. -/
def dupNoteFrag : Fragrance :=
  { id := "dup", name := "Dup", brand := "HouseD",
    notes := ["Vanilla", "Vanilla"], top_notes := ["Vanilla"],
    middle_notes := [], base_notes := ["Vanilla"], accords := ["sweet"],
    avg_rating := 0, num_ratings := 0 }

/-- C6, counterexample: for a catalog with one fragrance that lists vanilla
in two positions, `note_frequency["vanilla"]` is 2 (one per occurrence), not
the 1 the claim's per-fragrance counting would give. -/
theorem C6_counterexample :
    dictGet (noteFrequencies [dupNoteFrag]) "vanilla" 0 ≠
      specNoteFragranceCount [dupNoteFrag] "vanilla" := by decide

/-- C6, amended: `note_frequency` maps each lowercased note to its total
number of occurrences across all stored fragrances' combined note sequences
(a fragrance listing a note in `k` pyramid positions contributes `k`, not 1),
and `accord_frequency` counts accord occurrences likewise. -/
theorem C6_frequencies_count_occurrences (fs : List Fragrance) :
    (∀ note, dictGet (noteFrequencies fs) note 0 =
      ((fragValues fs).map (fun f => (f.notes.map pyLower).count note)).sum) ∧
    (∀ accord, dictGet (accordFrequencies fs) accord 0 =
      ((fragValues fs).map (fun f => (f.accords.map pyLower).count accord)).sum) :=
  ⟨fun note => dictGet_noteFrequencies fs note,
   fun accord => dictGet_accordFrequencies fs accord⟩

theorem dictUpd_append {α : Type} (acc : List (String × α)) (k : String) (v : α)
    (h : k ∉ acc.map Prod.fst) : dictUpd acc k v = acc ++ [(k, v)] := by
  unfold dictUpd
  rw [if_neg]
  intro hany
  rcases List.any_eq_true.mp hany with ⟨p, hp, hpk⟩
  apply h
  simp only [beq_iff_eq] at hpk
  exact hpk ▸ List.mem_map.mpr ⟨p, hp, rfl⟩

theorem buildDict_nodup_eq {α : Type} (l : List (String × α))
    (h : (l.map Prod.fst).Nodup) : buildDict l = l := by
  unfold buildDict
  suffices haux : ∀ (l2 acc : List (String × α)),
      (l2.map Prod.fst).Nodup →
      (∀ k ∈ l2.map Prod.fst, k ∉ acc.map Prod.fst) →
      l2.foldl (fun m p => dictUpd m p.1 p.2) acc = acc ++ l2 by
    have := haux l [] h (by simp)
    simpa using this
  intro l2
  induction l2 with
  | nil => intro acc _ _; simp
  | cons p t ih =>
    intro acc hnd hdisj
    rw [List.map_cons, List.nodup_cons] at hnd
    simp only [List.map_cons, List.mem_cons] at hdisj
    simp only [List.foldl_cons]
    rw [dictUpd_append acc p.1 p.2 (hdisj p.1 (Or.inl rfl))]
    rw [ih (acc ++ [(p.1, p.2)]) hnd.2 ?_]
    · simp
    · intro k hk
      simp only [List.map_append, List.mem_append]
      rintro (hka | hkp)
      · exact hdisj k (Or.inr hk) hka
      · simp only [List.map_cons, List.map_nil, List.mem_singleton] at hkp
        subst hkp
        exact hnd.1 hk

theorem sum_map_const_int {α : Type} (l : List α) (f : α → ℤ) (c : ℤ)
    (h : ∀ x ∈ l, f x = c) : (l.map f).sum = l.length * c := by
  induction l with
  | nil => simp
  | cons a t ih =>
    simp only [List.map_cons, List.sum_cons, List.length_cons]
    rw [h a (by simp), ih (fun x hx => h x (by simp [hx]))]
    push_cast
    ring

theorem sum_if_zero (l : List (String × ℤ)) (S : Finset String)
    (g : String → ℝ) (h : ∀ p ∈ l, p.1 ∉ S) :
    (l.map (fun p => if p.1 ∈ S then (p.2 : ℝ) * g p.1 else 0)).sum = 0 := by
  induction l with
  | nil => simp
  | cons p t ih =>
    simp only [List.map_cons, List.sum_cons]
    rw [if_neg (h p (by simp)), ih (fun q hq => h q (by simp [hq])), add_zero]

theorem matched_sum_single (l : List (String × ℤ)) (S : Finset String)
    (a : String) (i : ℤ) (g : String → ℝ)
    (hnd : (l.map Prod.fst).Nodup) (ha : a ∈ l.map Prod.fst)
    (hval : ∀ p ∈ l, p.2 = i)
    (hiff : ∀ p ∈ l, (p.1 ∈ S ↔ p.1 = a)) :
    (l.map (fun p => if p.1 ∈ S then (p.2 : ℝ) * g p.1 else 0)).sum =
      (i : ℝ) * g a := by
  induction l with
  | nil => simp at ha
  | cons p t ih =>
    simp only [List.map_cons, List.sum_cons]
    rw [List.map_cons, List.nodup_cons] at hnd
    by_cases hpa : p.1 = a
    · rw [if_pos ((hiff p (by simp)).mpr hpa)]
      rw [hval p (by simp), hpa]
      rw [sum_if_zero t S g ?_, add_zero]
      intro q hq hqS
      have hqa := (hiff q (by simp [hq])).mp hqS
      apply hnd.1
      rw [hpa, ← hqa]
      exact List.mem_map.mpr ⟨q, hq, rfl⟩
    · rw [if_neg (fun hmem => hpa ((hiff p (by simp)).mp hmem))]
      rw [zero_add]
      apply ih hnd.2 ?_ (fun q hq => hval q (by simp [hq]))
        (fun q hq => hiff q (by simp [hq]))
      rcases List.mem_map.mp ha with ⟨q, hq, hqa⟩
      simp only [List.mem_cons] at hq
      rcases hq with rfl | hq
      · exact absurd hqa hpa
      · exact List.mem_map.mpr ⟨q, hq, hqa⟩

theorem inter_keys_single (S : Finset String) (names : List String) (a : String)
    (ha : a ∈ names) (hiff : ∀ n ∈ names, (n ∈ S ↔ n = a)) :
    S ∩ names.toFinset = {a} := by
  ext x
  simp only [Finset.mem_inter, List.mem_toFinset, Finset.mem_singleton]
  constructor
  · rintro ⟨hxS, hxn⟩
    exact (hiff x hxn).mp hxS
  · rintro rfl
    exact ⟨(hiff _ ha).mpr rfl, ha⟩

theorem noteRarityMultiplier_5_gt_500 :
    noteRarityMultiplier 500 < noteRarityMultiplier 5 := by
  unfold noteRarityMultiplier
  have h5 : ((5 : ℕ) : ℝ) + 1 = 6 := by norm_num
  have h500 : ((500 : ℕ) : ℝ) + 1 = 501 := by norm_num
  rw [h5, h500]
  have hp6 : 0 < Real.log 6 := Real.log_pos (by norm_num)
  have hmono : Real.log 6 < Real.log 501 := Real.log_lt_log (by norm_num) (by norm_num)
  have hdiv : 1 / Real.log 501 < 1 / Real.log 6 :=
    one_div_lt_one_div_of_lt hp6 hmono
  linarith

theorem calcNotePrefMatch_closed (noteFreqs : List (String × ℕ))
    (notes : List String) (prefs : List NotePreference)
    (hp : prefs ≠ []) (hn : notes ≠ [])
    (hne : ((buildDict (prefs.map (fun p => (pyLower p.name, p.importance)))).map
      (fun p => p.2)).sum ≠ 0) :
    calcNotePrefMatch noteFreqs notes prefs =
      min
        (((buildDict (prefs.map (fun p => (pyLower p.name, p.importance)))).map
            (fun p => if p.1 ∈ lowerSetF notes then
              (p.2 : ℝ) * noteRarityMultiplier (dictGet noteFreqs p.1 1) else 0)).sum /
          ((((buildDict (prefs.map (fun p => (pyLower p.name, p.importance)))).map
              (fun p => p.2)).sum : ℤ) : ℝ) +
          ((lowerSetF notes ∩
              ((buildDict (prefs.map (fun p => (pyLower p.name, p.importance)))).map
                (fun p => p.1)).toFinset).card : ℝ) /
            ((buildDict (prefs.map (fun p => (pyLower p.name, p.importance)))).length : ℝ) *
            0.2)
        1 := by
  unfold calcNotePrefMatch
  split
  · rename_i hcond
    simp only [Bool.or_eq_true, List.isEmpty_iff] at hcond
    rcases hcond with h | h
    · exact absurd h hp
    · exact absurd h hn
  · dsimp only
    split
    · rename_i hzero
      exact absurd hzero hne
    · rfl

/-- C9: in a catalog where note `a` has global frequency 5 and note `b` has
global frequency 500, with all declared importances equal and positive, a
candidate matching exactly `a` among the declared preferences gets a strictly
higher note-preference-match component than an otherwise identical candidate
matching exactly `b`. -/
theorem C9_rare_note_scores_higher (noteFreqs : List (String × ℕ))
    (prefs : List NotePreference) (i : ℤ) (a b : String)
    (notesA notesB : List String)
    (hfa : dictGet noteFreqs a 1 = 5) (hfb : dictGet noteFreqs b 1 = 500)
    (hi : 0 < i) (himp : ∀ p ∈ prefs, p.importance = i)
    (hnodup : (prefs.map (fun p => pyLower p.name)).Nodup)
    (ha : a ∈ prefs.map (fun p => pyLower p.name))
    (hb : b ∈ prefs.map (fun p => pyLower p.name))
    (hab : a ≠ b)
    (hmA : ∀ n ∈ prefs.map (fun p => pyLower p.name), (n ∈ lowerSetF notesA ↔ n = a))
    (hmB : ∀ n ∈ prefs.map (fun p => pyLower p.name), (n ∈ lowerSetF notesB ↔ n = b)) :
    calcNotePrefMatch noteFreqs notesB prefs <
      calcNotePrefMatch noteFreqs notesA prefs := by
  have hprefs_ne : prefs ≠ [] := by
    intro h
    rw [h] at ha
    simp at ha
  have hnotesA_ne : notesA ≠ [] := by
    intro h
    have := (hmA a ha).mpr rfl
    rw [h] at this
    simp [lowerSetF] at this
  have hnotesB_ne : notesB ≠ [] := by
    intro h
    have := (hmB b hb).mpr rfl
    rw [h] at this
    simp [lowerSetF] at this
  set entries := prefs.map (fun p => (pyLower p.name, p.importance)) with hentries
  have hkeys : entries.map Prod.fst = prefs.map (fun p => pyLower p.name) := by
    rw [hentries, List.map_map]
    rfl
  have hnd : (entries.map Prod.fst).Nodup := by rw [hkeys]; exact hnodup
  have hdict : buildDict entries = entries := buildDict_nodup_eq entries hnd
  have hvals : ∀ p ∈ entries, p.2 = i := by
    intro p hp
    rcases List.mem_map.mp hp with ⟨q, hq, rfl⟩
    exact himp q hq
  have hlen : entries.length = prefs.length := by rw [hentries, List.length_map]
  have hlen2 : 2 ≤ prefs.length := by
    have hsub : ({a, b} : Finset String) ⊆
        (prefs.map (fun p => pyLower p.name)).toFinset := by
      intro x hx
      simp only [Finset.mem_insert, Finset.mem_singleton] at hx
      rcases hx with rfl | rfl
      · exact List.mem_toFinset.mpr ha
      · exact List.mem_toFinset.mpr hb
    have hcard2 : ({a, b} : Finset String).card = 2 := by
      rw [Finset.card_insert_of_not_mem (by simpa using hab), Finset.card_singleton]
    calc 2 = ({a, b} : Finset String).card := hcard2.symm
      _ ≤ (prefs.map (fun p => pyLower p.name)).toFinset.card :=
          Finset.card_le_card hsub
      _ ≤ (prefs.map (fun p => pyLower p.name)).length :=
          List.toFinset_card_le _
      _ = prefs.length := List.length_map _ _
  have hL : (2 : ℝ) ≤ (prefs.length : ℝ) := by exact_mod_cast hlen2
  have hLpos : (0 : ℝ) < (prefs.length : ℝ) := by linarith
  have htw : (entries.map (fun p => p.2)).sum = (prefs.length : ℤ) * i := by
    rw [show (entries.map (fun p => p.2)) = entries.map Prod.snd from rfl]
    rw [sum_map_const_int entries Prod.snd i hvals, hlen]
  have htwne : ((entries.map (fun p => p.2)).sum : ℤ) ≠ 0 := by
    rw [htw]
    have h2 : (0 : ℤ) < (prefs.length : ℤ) := by
      have : (2 : ℤ) ≤ (prefs.length : ℤ) := by exact_mod_cast hlen2
      omega
    have := mul_pos h2 hi
    omega
  have hiffA : ∀ p ∈ entries, (p.1 ∈ lowerSetF notesA ↔ p.1 = a) := by
    intro p hp
    apply hmA
    rw [← hkeys]
    exact List.mem_map.mpr ⟨p, hp, rfl⟩
  have hiffB : ∀ p ∈ entries, (p.1 ∈ lowerSetF notesB ↔ p.1 = b) := by
    intro p hp
    apply hmB
    rw [← hkeys]
    exact List.mem_map.mpr ⟨p, hp, rfl⟩
  have haE : a ∈ entries.map Prod.fst := by rw [hkeys]; exact ha
  have hbE : b ∈ entries.map Prod.fst := by rw [hkeys]; exact hb
  have hsumA : (entries.map (fun p => if p.1 ∈ lowerSetF notesA then
      (p.2 : ℝ) * noteRarityMultiplier (dictGet noteFreqs p.1 1) else 0)).sum =
      (i : ℝ) * noteRarityMultiplier (dictGet noteFreqs a 1) :=
    matched_sum_single entries (lowerSetF notesA) a i
      (fun n => noteRarityMultiplier (dictGet noteFreqs n 1)) hnd haE hvals hiffA
  have hsumB : (entries.map (fun p => if p.1 ∈ lowerSetF notesB then
      (p.2 : ℝ) * noteRarityMultiplier (dictGet noteFreqs p.1 1) else 0)).sum =
      (i : ℝ) * noteRarityMultiplier (dictGet noteFreqs b 1) :=
    matched_sum_single entries (lowerSetF notesB) b i
      (fun n => noteRarityMultiplier (dictGet noteFreqs n 1)) hnd hbE hvals hiffB
  have hcovA : (lowerSetF notesA ∩ (entries.map Prod.fst).toFinset).card = 1 := by
    rw [hkeys, inter_keys_single (lowerSetF notesA) _ a ha hmA, Finset.card_singleton]
  have hcovB : (lowerSetF notesB ∩ (entries.map Prod.fst).toFinset).card = 1 := by
    rw [hkeys, inter_keys_single (lowerSetF notesB) _ b hb hmB, Finset.card_singleton]
  have htwne2 : ((buildDict (prefs.map (fun p => (pyLower p.name, p.importance)))).map
      (fun p => p.2)).sum ≠ 0 := by
    rw [← hentries, hdict]
    exact htwne
  rw [calcNotePrefMatch_closed noteFreqs notesB prefs hprefs_ne hnotesB_ne htwne2,
    calcNotePrefMatch_closed noteFreqs notesA prefs hprefs_ne hnotesA_ne htwne2]
  rw [← hentries, hdict]
  rw [show entries.map (fun p => p.1) = entries.map Prod.fst from rfl]
  rw [hsumA, hsumB, hcovA, hcovB, hfa, hfb, htw, hlen]
  have hcast : (((prefs.length : ℤ) * i : ℤ) : ℝ) = (prefs.length : ℝ) * (i : ℝ) := by
    push_cast
    ring
  rw [hcast]
  simp only [Nat.cast_one]
  have hiR : (0 : ℝ) < (i : ℝ) := by exact_mod_cast hi
  have hmultB_le : noteRarityMultiplier 500 ≤ 1.5 :=
    noteRarityMultiplier_cap (by norm_num)
  have hlt := noteRarityMultiplier_5_gt_500
  have hsimpA : (i : ℝ) * noteRarityMultiplier 5 / ((prefs.length : ℝ) * (i : ℝ)) =
      noteRarityMultiplier 5 / (prefs.length : ℝ) := by
    field_simp
    ring
  have hsimpB : (i : ℝ) * noteRarityMultiplier 500 / ((prefs.length : ℝ) * (i : ℝ)) =
      noteRarityMultiplier 500 / (prefs.length : ℝ) := by
    field_simp
    ring
  rw [hsimpA, hsimpB]
  have hdivB : noteRarityMultiplier 500 / (prefs.length : ℝ) ≤ 1.5 / 2 :=
    div_le_div (by norm_num) hmultB_le (by norm_num) hL
  have hdivcov : (1 : ℝ) / (prefs.length : ℝ) ≤ 1 / 2 :=
    one_div_le_one_div_of_le (by norm_num) hL
  have hxB_lt_one : noteRarityMultiplier 500 / (prefs.length : ℝ) +
      1 / (prefs.length : ℝ) * 0.2 < 1 := by
    nlinarith
  have hxAB : noteRarityMultiplier 500 / (prefs.length : ℝ) +
      1 / (prefs.length : ℝ) * 0.2 <
      noteRarityMultiplier 5 / (prefs.length : ℝ) +
      1 / (prefs.length : ℝ) * 0.2 := by
    have := (div_lt_div_right hLpos).mpr hlt
    linarith
  rw [min_eq_left hxB_lt_one.le]
  exact lt_min hxAB hxB_lt_one

/-- Witness for C9 at a concrete frequency table, preference list and pair of
candidates. -/
theorem C9_witness :
    calcNotePrefMatch [("aa", 5), ("bb", 500)] ["bb"] [⟨"aa", 5⟩, ⟨"bb", 5⟩] <
      calcNotePrefMatch [("aa", 5), ("bb", 500)] ["aa"] [⟨"aa", 5⟩, ⟨"bb", 5⟩] :=
  C9_rare_note_scores_higher [("aa", 5), ("bb", 500)] [⟨"aa", 5⟩, ⟨"bb", 5⟩]
    5 "aa" "bb" ["aa"] ["bb"]
    (by decide) (by decide) (by norm_num)
    (by intro p hp
        simp only [List.mem_cons, List.not_mem_nil, or_false] at hp
        rcases hp with rfl | rfl <;> rfl)
    (by decide) (by decide) (by decide) (by decide) (by decide) (by decide)

/-! ## String normalization lemmas for catalog loading -/

theorem toNat_ofNat_valid (n : ℕ) (h1 : 97 ≤ n) (h2 : n ≤ 122) :
    (Char.ofNat n).toNat = n := by
  have hv : n.isValidChar := Or.inl (by omega)
  simp [Char.ofNat, hv, Char.ofNatAux, Char.toNat, BitVec.toNat_ofNatLt, UInt32.toNat]

theorem toLower_toLower (c : Char) :
    Char.toLower (Char.toLower c) = Char.toLower c := by
  unfold Char.toLower
  by_cases h : c.toNat ≥ 65 ∧ c.toNat ≤ 90
  · rw [if_pos h]
    have ht : (Char.ofNat (c.toNat + 32)).toNat = c.toNat + 32 :=
      toNat_ofNat_valid _ (by omega) (by omega)
    rw [if_neg]
    rw [ht]
    omega
  · rw [if_neg h, if_neg h]

theorem isPySpace_toLower (c : Char) :
    isPySpace (Char.toLower c) = isPySpace c := by
  unfold Char.toLower
  by_cases h : c.toNat ≥ 65 ∧ c.toNat ≤ 90
  · rw [if_pos h]
    have ht : (Char.ofNat (c.toNat + 32)).toNat = c.toNat + 32 :=
      toNat_ofNat_valid _ (by omega) (by omega)
    unfold isPySpace
    rw [ht]
    have e1 : ¬ (c.toNat + 32 = 32) := by omega
    have e2 : ¬ (c.toNat + 32 = 9) := by omega
    have e3 : ¬ (c.toNat + 32 = 10) := by omega
    have e4 : ¬ (c.toNat + 32 = 13) := by omega
    have f1 : ¬ (c.toNat = 32) := by omega
    have f2 : ¬ (c.toNat = 9) := by omega
    have f3 : ¬ (c.toNat = 10) := by omega
    have f4 : ¬ (c.toNat = 13) := by omega
    simp [e1, e2, e3, e4, f1, f2, f3, f4]
  · rw [if_neg h]

theorem stripChars_eq_rdropWhile (l : List Char) :
    stripChars l = (l.dropWhile isPySpace).rdropWhile isPySpace := rfl

theorem dropWhile_eq_self_of_prefix {α : Type} {p : α → Bool} {l1 l2 : List α}
    (hpre : l1 <+: l2) (h : l2.dropWhile p = l2) : l1.dropWhile p = l1 := by
  cases l1 with
  | nil => rfl
  | cons a t =>
    rcases hpre with ⟨r, hr⟩
    rw [← hr, List.cons_append, List.dropWhile_cons] at h
    by_cases hpa : p a
    · exfalso
      rw [if_pos hpa] at h
      have hle := (List.dropWhile_sublist p (l := t ++ r)).length_le
      rw [h] at hle
      simp at hle
    · rw [List.dropWhile_cons, if_neg hpa]

theorem dropWhile_stripChars (l : List Char) :
    (stripChars l).dropWhile isPySpace = stripChars l := by
  rw [stripChars_eq_rdropWhile]
  exact dropWhile_eq_self_of_prefix (List.rdropWhile_prefix _ _)
    (List.dropWhile_idempotent isPySpace l)

theorem stripChars_idem (l : List Char) :
    stripChars (stripChars l) = stripChars l := by
  rw [stripChars_eq_rdropWhile (stripChars l), dropWhile_stripChars]
  rw [stripChars_eq_rdropWhile]
  exact List.rdropWhile_idempotent isPySpace (l.dropWhile isPySpace)

theorem stripChars_map (f : Char → Char)
    (hf : ∀ c, isPySpace (f c) = isPySpace c) (l : List Char) :
    stripChars (l.map f) = (stripChars l).map f := by
  have hp : (isPySpace ∘ f) = isPySpace := funext hf
  unfold stripChars
  rw [List.dropWhile_map, hp, ← List.map_reverse, List.dropWhile_map, hp,
    ← List.map_reverse]

theorem pyLower_pyLower (s : String) : pyLower (pyLower s) = pyLower s := by
  unfold pyLower
  rw [List.map_map,
    show (Char.toLower ∘ Char.toLower) = Char.toLower from funext toLower_toLower]

theorem pyStrip_pyLower_pyStrip (s : String) :
    pyStrip (pyLower (pyStrip s)) = pyLower (pyStrip s) := by
  unfold pyLower pyStrip
  congr 1
  rw [stripChars_map Char.toLower isPySpace_toLower, stripChars_idem]

theorem pyLower_ne_empty {s : String} (h : s ≠ "") : pyLower s ≠ "" := by
  intro he
  apply h
  unfold pyLower at he
  have hdata : s.data.map Char.toLower = [] := congrArg String.data he
  have : s.data = [] := List.map_eq_nil.mp hdata
  cases s
  simp only at this
  rw [this]

/-- Every string `_clean_note_list` produces is non-empty, already lowercase
and already stripped. -/
theorem cleanNoteList_normalized (v : DBValue) :
    ∀ n ∈ cleanNoteList v, n ≠ "" ∧ pyLower n = n ∧ pyStrip n = n := by
  intro n hn
  unfold cleanNoteList at hn
  split at hn
  · simp at hn
  · match v with
    | .vnull => simp at hn
    | .vnum q => simp at hn
    | .vint m => simp at hn
    | .vlist l =>
      simp only at hn
      rcases List.mem_map.mp hn with ⟨x, hx, rfl⟩
      have hcond := List.of_mem_filter hx
      simp only [Bool.and_eq_true, decide_eq_true_eq] at hcond
      exact ⟨pyLower_ne_empty hcond.2, pyLower_pyLower _, pyStrip_pyLower_pyStrip _⟩
    | .vstr s =>
      simp only at hn
      rcases List.mem_map.mp hn with ⟨x, hx, rfl⟩
      have hcond := List.of_mem_filter hx
      simp only [decide_eq_true_eq] at hcond
      exact ⟨pyLower_ne_empty hcond, pyLower_pyLower _, pyStrip_pyLower_pyStrip _⟩

/-- C7, counterexample: a row matching the external-interface shape (rating
"numeric-coercible or null") whose `average_rating` is present but null makes
`float(None)` raise, so loading does not coerce it to 0.0. -/
theorem C7_counterexample :
    fromDatabaseRows [[("id", .vstr "frag-1"), ("name", .vstr "Name"),
      ("brand_name", .vstr "Brand"), ("average_rating", .vnull)]] =
      .error "TypeError: float() argument" := rfl

/-- A rating/count field that the load's `float(...)`/`int(...)` coercion
accepts: absent (so the `.get` default applies) or an actual number.  A
present null, list, or non-numeric value raises. -/
def rowNumericField (row : List (String × DBValue)) (k : String) : Prop :=
  match rowGet row k with
  | none => True
  | some (.vnum _) => True
  | some (.vint _) => True
  | some _ => False

/-- Rows that `from_database_rows` is proved to load without raising:
identification fields present and rating fields absent-or-numeric; the four
note/accord fields may have any shape. -/
def rowLoadable (row : List (String × DBValue)) : Prop :=
  (rowGet row "id").isSome ∧ (rowGet row "name").isSome ∧
  (rowGet row "brand_name").isSome ∧
  rowNumericField row "average_rating" ∧ rowNumericField row "total_ratings"

theorem pyFloat_numeric {row : List (String × DBValue)} {k : String}
    (h : rowNumericField row k) :
    ∃ q, pyFloat ((rowGet row k).getD (.vnum 0)) = some q := by
  unfold rowNumericField at h
  cases hr : rowGet row k with
  | none => exact ⟨0, rfl⟩
  | some v =>
    rw [hr] at h
    cases v with
    | vnum q => exact ⟨q, rfl⟩
    | vint n => exact ⟨n, rfl⟩
    | vnull => exact h.elim
    | vstr s => exact h.elim
    | vlist l => exact h.elim

theorem pyInt_numeric {row : List (String × DBValue)} {k : String}
    (h : rowNumericField row k) :
    ∃ n, pyInt ((rowGet row k).getD (.vint 0)) = some n := by
  unfold rowNumericField at h
  cases hr : rowGet row k with
  | none => exact ⟨0, rfl⟩
  | some v =>
    rw [hr] at h
    cases v with
    | vnum q => exact ⟨ratTrunc q, rfl⟩
    | vint n => exact ⟨n, rfl⟩
    | vnull => exact h.elim
    | vstr s => exact h.elim
    | vlist l => exact h.elim

theorem rowToFragrance_ok {row : List (String × DBValue)} (h : rowLoadable row) :
    ∃ f, rowToFragrance row = .ok f ∧
      f.notes = f.top_notes ++ f.middle_notes ++ f.base_notes ∧
      ∀ n ∈ f.top_notes ++ f.middle_notes ++ f.base_notes ++ f.accords,
        n ≠ "" ∧ pyLower n = n ∧ pyStrip n = n := by
  obtain ⟨idv, hid⟩ := Option.isSome_iff_exists.mp h.1
  obtain ⟨namev, hname⟩ := Option.isSome_iff_exists.mp h.2.1
  obtain ⟨brandv, hbrand⟩ := Option.isSome_iff_exists.mp h.2.2.1
  obtain ⟨qa, hqa⟩ := pyFloat_numeric h.2.2.2.1
  obtain ⟨ti, hti⟩ := pyInt_numeric h.2.2.2.2
  have hform : rowToFragrance row = .ok
      { id := pyStr idv, name := pyStr namev, brand := pyStr brandv,
        notes := cleanNoteList ((rowGet row "top_notes").getD (.vlist [])) ++
          cleanNoteList ((rowGet row "middle_notes").getD (.vlist [])) ++
          cleanNoteList ((rowGet row "base_notes").getD (.vlist [])),
        top_notes := cleanNoteList ((rowGet row "top_notes").getD (.vlist [])),
        middle_notes := cleanNoteList ((rowGet row "middle_notes").getD (.vlist [])),
        base_notes := cleanNoteList ((rowGet row "base_notes").getD (.vlist [])),
        accords := cleanNoteList ((rowGet row "main_accords").getD (.vlist [])),
        avg_rating := (qa : ℝ), num_ratings := ti } := by
    unfold rowToFragrance
    rw [hid, hname, hbrand, hqa, hti]
  refine ⟨_, hform, rfl, ?_⟩
  intro n hn
  simp only [List.mem_append] at hn
  rcases hn with ((hn | hn) | hn) | hn
  · exact cleanNoteList_normalized _ n hn
  · exact cleanNoteList_normalized _ n hn
  · exact cleanNoteList_normalized _ n hn
  · exact cleanNoteList_normalized _ n hn

/-- C7, amended: catalog loading never raises for rows whose id, name and
brand are present and whose rating fields are absent or numeric -- every
note/accord field shape (list, delimited string, null, anything else) is
normalized to a list of lowercased, trimmed, non-empty strings, and a
*missing* rating field is coerced to 0.0 / 0; but a present null (or other
non-coercible) rating value raises rather than coercing, as the
counterexample shows. -/
theorem C7_load_normalizes (rows : List (List (String × DBValue)))
    (hrows : ∀ row ∈ rows, rowLoadable row) :
    ∃ frs, fromDatabaseRows rows = .ok frs ∧ frs.length = rows.length ∧
      ∀ f ∈ frs,
        f.notes = f.top_notes ++ f.middle_notes ++ f.base_notes ∧
        ∀ n ∈ f.top_notes ++ f.middle_notes ++ f.base_notes ++ f.accords,
          n ≠ "" ∧ pyLower n = n ∧ pyStrip n = n := by
  induction rows with
  | nil => exact ⟨[], rfl, rfl, by simp⟩
  | cons row t ih =>
    obtain ⟨f, hf, hnotes, hnorm⟩ := rowToFragrance_ok (hrows row (by simp))
    obtain ⟨frs, hfrs, hlen, hall⟩ := ih (fun r hr => hrows r (by simp [hr]))
    refine ⟨f :: frs, ?_, by simp [hlen], ?_⟩
    · unfold fromDatabaseRows at hfrs ⊢
      rw [List.mapM_cons, hf, hfrs]
      rfl
    · intro g hg
      simp only [List.mem_cons] at hg
      rcases hg with rfl | hg
      · exact ⟨hnotes, hnorm⟩
      · exact hall g hg

/-- Witness for C7's amended statement: two loadable rows, one with a missing
rating (defaulted) and one with flexible note-field shapes. -/
theorem C7_witness :
    ∃ frs, fromDatabaseRows
      [[("id", .vstr "f1"), ("name", .vstr "One"), ("brand_name", .vstr "B1"),
        ("top_notes", .vlist [.vstr " Vanilla ", .vstr ""]),
        ("main_accords", .vstr "Woody, Sweet"),
        ("average_rating", .vnum (21 / 5)), ("total_ratings", .vint 100)],
       [("id", .vstr "f2"), ("name", .vstr "Two"), ("brand_name", .vstr "B2"),
        ("middle_notes", .vnull)]] = .ok frs ∧
      frs.length = 2 ∧
      ∀ f ∈ frs,
        f.notes = f.top_notes ++ f.middle_notes ++ f.base_notes ∧
        ∀ n ∈ f.top_notes ++ f.middle_notes ++ f.base_notes ++ f.accords,
          n ≠ "" ∧ pyLower n = n ∧ pyStrip n = n := by
  have h := C7_load_normalizes
    [[("id", .vstr "f1"), ("name", .vstr "One"), ("brand_name", .vstr "B1"),
      ("top_notes", .vlist [.vstr " Vanilla ", .vstr ""]),
      ("main_accords", .vstr "Woody, Sweet"),
      ("average_rating", .vnum (21 / 5)), ("total_ratings", .vint 100)],
     [("id", .vstr "f2"), ("name", .vstr "Two"), ("brand_name", .vstr "B2"),
      ("middle_notes", .vnull)]]
    (by
      intro row hrow
      simp only [List.mem_cons, List.not_mem_nil, or_false] at hrow
      rcases hrow with rfl | rfl
      · exact ⟨rfl, rfl, rfl, trivial, trivial⟩
      · exact ⟨rfl, rfl, rfl, trivial, trivial⟩)
  obtain ⟨frs, hok, hlen, hprops⟩ := h
  exact ⟨frs, hok, by rw [hlen]; rfl, hprops⟩
